import Mathlib

/-!
Verification of the LAN messenger's core protocols, shallowly embedded from
the Python sources (`main.py`, `peer_discovery.py`, `server.py`,
`voicevideo_handler.py`).  Bytes are `Nat` (0..255), unicode code points are
`Nat`, wall-clock time is `ℚ` (abstracting Python's float `time.time()`),
and each stateful handler is embedded as an explicit state-passing function
returning the successor state together with the list of observable effects
(datagrams sent, media streams started, ...).
-/

/- ===================== voicevideo_handler.py ===================== -/

/-- UDP port triple carried in `call_request` / `call_accepted` messages
(`voicevideo_handler.py`, the `ports` dictionaries). -/
structure Ports where
  audio : Nat
  video : Nat
  control : Nat
deriving DecidableEq

/-- The mutable attributes of `VoiceVideoHandler` that the call-signaling
code reads or writes.  Media resources (`audio_input`, `audio_output`,
`video_capture`, `audio_socket`, `video_socket`) are `true` when the Python
attribute holds a live object and `false` when it is `None`. -/
structure VVState where
  username : String
  audio_port : Nat
  video_port : Nat
  control_port : Nat
  in_call : Bool
  is_caller : Bool
  call_peer_ip : Option String
  call_peer_ports : Option Ports
  current_call_type : String
  audio_input : Bool
  audio_output : Bool
  video_capture : Bool
  audio_socket : Bool
  video_socket : Bool
deriving DecidableEq

/-- The JSON control datagrams exchanged on the control port
(`voicevideo_handler.py`: the `type` field of each control message). -/
inductive CtrlMsg where
  | call_request (username : String) (call_type : String) (ports : Ports)
  | call_accepted (ports : Ports)
  | call_rejected
  | call_ended
  | busy
deriving DecidableEq

/-- Observable effects of the call engine: `sendCtrl ip m` is
`_send_control_message(ip, m)` (the target is `Option` because
`self.call_peer_ip` can be `None`); `mediaStart ip ports ct` records that
`_start_media_streams` spawned the send/receive threads toward `ip` using
`ports`, for call type `ct`. -/
inductive VVEffect where
  | sendCtrl (ip : Option String) (msg : CtrlMsg)
  | mediaStart (ip : String) (ports : Ports) (call_type : String)
deriving DecidableEq

/-- `VoiceVideoHandler.__init__(username, base_port)`. -/
def initVVState (username : String) (base_port : Nat) : VVState :=
  { username := username
    audio_port := base_port
    video_port := base_port + 1
    control_port := base_port + 2
    in_call := false
    is_caller := false
    call_peer_ip := none
    call_peer_ports := none
    current_call_type := "both"
    audio_input := false
    audio_output := false
    video_capture := false
    audio_socket := false
    video_socket := false }

/-- `VoiceVideoHandler._end_call`: clear `in_call`, stop and null out both
audio streams, release the video capture, close and null out both media
sockets.  All other attributes are left untouched, as in the source. -/
def endCallCleanup (s : VVState) : VVState :=
  { s with in_call := false
           audio_input := false
           audio_output := false
           video_capture := false
           audio_socket := false
           video_socket := false }

/-- `VoiceVideoHandler.end_call`: when `in_call`, notify the peer with a
`call_ended` control message, then run `_end_call`. -/
def endCall (s : VVState) : VVState × List VVEffect :=
  if s.in_call then
    (endCallCleanup s, [VVEffect.sendCtrl s.call_peer_ip CtrlMsg.call_ended])
  else
    (endCallCleanup s, [])

/-- `VoiceVideoHandler._start_media_streams(peer_ip, peer_ports, call_type)`:
sets `in_call = True`, then opens the audio input/output streams and the
audio socket, plus the video capture and video socket when
`call_type == 'both'`, and spawns the streaming threads (`mediaStart`
effect).  `deviceOk` is the environment: when `false` the `try` block
raises and the handler falls back to `_end_call` (no media effect). -/
def startMediaStreams (s : VVState) (peer_ip : String) (peer_ports : Ports)
    (call_type : String) (deviceOk : Bool) : VVState × List VVEffect :=
  let s1 := { s with in_call := true }
  if deviceOk then
    let s2 := { s1 with audio_input := true
                        audio_output := true
                        audio_socket := true
                        video_capture := if call_type = "both" then true else s1.video_capture
                        video_socket := if call_type = "both" then true else s1.video_socket }
    (s2, [VVEffect.mediaStart peer_ip peer_ports call_type])
  else
    (endCallCleanup s1, [])

/-- `VoiceVideoHandler._accept_call(message, addr)`: record the session,
send `call_accepted` with our own port triple, then start media streams
toward the caller with the ports the request carried. -/
def acceptCall (s : VVState) (msg_call_type : String) (msg_ports : Ports)
    (addr : String) (deviceOk : Bool) : VVState × List VVEffect :=
  let s1 := { s with in_call := true
                     is_caller := false
                     call_peer_ip := some addr
                     call_peer_ports := some msg_ports }
  let accepted := VVEffect.sendCtrl (some addr)
    (CtrlMsg.call_accepted ⟨s.audio_port, s.video_port, s.control_port⟩)
  let r := startMediaStreams s1 addr msg_ports msg_call_type deviceOk
  (r.1, accepted :: r.2)

/-- `VoiceVideoHandler._handle_call_control(message, addr)`.  `userAccept`
models the interactive `input("Accept call? (y/n)")` answer and `deviceOk`
the media-device environment of `_start_media_streams`. -/
def handleCallControl (s : VVState) (m : CtrlMsg) (addr : String)
    (userAccept : Bool) (deviceOk : Bool) : VVState × List VVEffect :=
  match m with
  | CtrlMsg.call_request _ ct ports =>
    if !s.in_call then
      if userAccept then acceptCall s ct ports addr deviceOk
      else (s, [VVEffect.sendCtrl (some addr) CtrlMsg.call_rejected])
    else
      (s, [VVEffect.sendCtrl (some addr) CtrlMsg.busy])
  | CtrlMsg.call_accepted ports =>
    startMediaStreams s addr ports s.current_call_type deviceOk
  | CtrlMsg.call_rejected => (s, [])
  | CtrlMsg.call_ended => (endCallCleanup s, [])
  | CtrlMsg.busy => (s, [])

/-- `VoiceVideoHandler.make_call(peer_ip, call_type)`: refuse when already
in a call; otherwise mark ourselves as caller, remember the peer and call
type, and send `call_request` with our port triple. -/
def makeCall (s : VVState) (peer_ip : String) (call_type : String) :
    VVState × List VVEffect :=
  if s.in_call then (s, [])
  else
    ({ s with is_caller := true
              call_peer_ip := some peer_ip
              current_call_type := call_type },
     [VVEffect.sendCtrl (some peer_ip)
        (CtrlMsg.call_request s.username call_type
          ⟨s.audio_port, s.video_port, s.control_port⟩)])

/-- All media resources released and the call flag down: exactly the
postcondition of `_end_call`. -/
def allReleased (s : VVState) : Bool :=
  !s.in_call && !s.audio_input && !s.audio_output &&
  !s.video_capture && !s.audio_socket && !s.video_socket

/- ===================== main.py: TCP framing ===================== -/

/-- One `sock.recv(n)` call.  The socket is modelled as the list of byte
segments the kernel will deliver to successive reads: `recv n` hands over
the next segment, truncated to `n` bytes with the remainder re-queued when
the segment is larger.  An exhausted list models the peer having closed
the connection (`recv` returns the empty byte string). -/
def recvStep (s : List (List Nat)) (n : Nat) : List Nat × List (List Nat) :=
  match s with
  | [] => ([], [])
  | c :: rest => if c.length ≤ n then (c, rest) else (c.take n, c.drop n :: rest)

/-- The loop body of `LANMessenger._recv_all(sock, length)`, written as
fuel-indexed recursion (each successful `recv` returns at least one byte,
so `fuel = length` always suffices; running out of fuel cannot happen on
the reachable arguments).  `none` models the `EOFError("Socket closed
before receiving required data")` raised when `recv` returns no bytes. -/
def recvAllF : Nat → List (List Nat) → Nat → Option (List Nat × List (List Nat))
  | _, s, 0 => some ([], s)
  | 0, _, _ + 1 => none
  | fuel + 1, s, need + 1 =>
    let r := recvStep s (need + 1)
    if r.1.isEmpty then none
    else
      match recvAllF fuel r.2 (need + 1 - r.1.length) with
      | none => none
      | some (restData, s3) => some (r.1 ++ restData, s3)

/-- `LANMessenger._recv_all(sock, n)`: block until exactly `n` bytes are
read, or fail with `EOFError` (`none`) if the connection closes early. -/
def recvAll (s : List (List Nat)) (n : Nat) : Option (List Nat × List (List Nat)) :=
  recvAllF n s n

/- ============ main.py: envelopes, JSON wire encoding, framing ============ -/

/-- ASCII code points of a Lean string literal (used for the fixed JSON keys
and tag values appearing in `main.py`). -/
def asc (s : String) : List Nat :=
  s.data.map Char.toNat

/-- A text or file envelope as built by `LANMessenger.send_message` /
`send_file_to_peer`.  Strings are lists of unicode code points; for a file
envelope `content` is the base64 text produced by the sender (the claim is
about the envelope fields themselves, so base64 stays opaque). -/
inductive Envelope where
  | text (content username : List Nat)
  | file (username filename content : List Nat)
deriving DecidableEq

/-- A code point Python can serialize and UTF-8-encode: a unicode scalar
value (below 0x110000 and not a lone surrogate). -/
def validCodepointB (c : Nat) : Bool :=
  decide (c < 1114112) && !(decide (55296 ≤ c) && decide (c < 57344))

/-- All code points of the string are unicode scalar values. -/
def validStr (s : List Nat) : Bool :=
  s.all validCodepointB

/-- All string fields of the envelope are genuine Python strings. -/
def validEnvelope : Envelope → Bool
  | Envelope.text c u => validStr c && validStr u
  | Envelope.file u f c => validStr u && validStr f && validStr c

/-- Lower-case hex digit, as produced by Python's `'\u%04x'` escapes. -/
def hexDigitChar (d : Nat) : Nat :=
  if d < 10 then 48 + d else 87 + d

/-- Four lower-case hex digits of `n < 0x10000`, most significant first. -/
def hex4 (n : Nat) : List Nat :=
  [hexDigitChar (n / 4096 % 16), hexDigitChar (n / 256 % 16),
   hexDigitChar (n / 16 % 16), hexDigitChar (n % 16)]

/-- `json.dumps` escaping of one character with the default
`ensure_ascii=True`: printable ASCII other than `"` and `\` is literal,
the short `\" \\ \b \f \n \r \t` escapes are used where defined, every
other BMP character becomes `\uXXXX`, and astral characters become a
UTF-16 surrogate pair of `\uXXXX` escapes. -/
def escapeChar (c : Nat) : List Nat :=
  if c = 34 then [92, 34]
  else if c = 92 then [92, 92]
  else if c = 8 then [92, 98]
  else if c = 12 then [92, 102]
  else if c = 10 then [92, 110]
  else if c = 13 then [92, 114]
  else if c = 9 then [92, 116]
  else if 32 ≤ c ∧ c ≤ 126 then [c]
  else if c < 65536 then 92 :: 117 :: hex4 c
  else (92 :: 117 :: hex4 (55296 + (c - 65536) / 1024))
    ++ (92 :: 117 :: hex4 (56320 + (c - 65536) % 1024))

/-- Escape a whole string (body of a JSON string literal). -/
def escString (s : List Nat) : List Nat :=
  (s.map escapeChar).flatten

/-- A JSON string literal: opening quote, escaped body, closing quote. -/
def encodeJString (s : List Nat) : List Nat :=
  34 :: escString s ++ [34]

/-- Join the serialized members with `json.dumps`'s default `', '`
item separator. -/
def joinComma : List (List Nat) → List Nat
  | [] => []
  | [x] => x
  | x :: y :: rest => x ++ [44, 32] ++ joinComma (y :: rest)

/-- One `"key": "value"` member, with the default `': '` separator. -/
def itemEnc (p : List Nat × List Nat) : List Nat :=
  encodeJString p.1 ++ [58, 32] ++ encodeJString p.2

/-- Members of an object in `json.dumps` order. -/
def encodeMembers (pairs : List (List Nat × List Nat)) : List Nat :=
  joinComma (pairs.map itemEnc)

/-- `json.dumps` of a Python dict whose keys and values are strings, in
insertion order — the only shape `main.py` ever serializes. -/
def encodeObj (pairs : List (List Nat × List Nat)) : List Nat :=
  123 :: encodeMembers pairs ++ [125]

/-- `json.dumps(...).encode('utf-8')` of the envelope dict literal in
`send_message` (keys `type, content, username`) or `send_file_to_peer`
(keys `type, username, filename, content`); with `ensure_ascii=True` the
dumped text is pure ASCII, so bytes and code points coincide. -/
def serializeEnvelope : Envelope → List Nat
  | Envelope.text c u =>
    encodeObj [(asc "type", asc "text"), (asc "content", c), (asc "username", u)]
  | Envelope.file u f c =>
    encodeObj [(asc "type", asc "file"), (asc "username", u),
               (asc "filename", f), (asc "content", c)]

/-- ASCII decimal digits of `n`, most significant first (fuel-indexed;
`fuel = n` always suffices since the recursion divides by 10). -/
def natDigitsAux : Nat → Nat → List Nat
  | 0, n => [48 + n % 10]
  | fuel + 1, n => if n < 10 then [48 + n] else natDigitsAux fuel (n / 10) ++ [48 + n % 10]

/-- ASCII decimal digits of `n`. -/
def natDigits (n : Nat) : List Nat :=
  natDigitsAux n n

/-- Python's `f"{n:08}"`: the decimal digits of `n`, left-padded with `'0'`
to a minimum width of 8 (wider numbers keep all their digits). -/
def lengthHeader (n : Nat) : List Nat :=
  List.replicate (8 - (natDigits n).length) 48 ++ natDigits n

/-- `LANMessenger._send_with_length`: the bytes written to the connection,
i.e. the length header immediately followed by the JSON payload. -/
def sendWithLength (payload : List Nat) : List Nat :=
  lengthHeader payload.length ++ payload

/-- ASCII decimal digit test. -/
def isDigitByte (b : Nat) : Bool :=
  decide (48 ≤ b ∧ b ≤ 57)

/-- `int(bs.decode('utf-8'))` on the wire's length headers: the value of a
nonempty all-digit ASCII string (leading zeros allowed); `none` models the
`ValueError` raised on anything else. -/
def parseDecimal (bs : List Nat) : Option Nat :=
  if bs ≠ [] ∧ bs.all isDigitByte = true then
    some (bs.foldl (fun a b => a * 10 + (b - 48)) 0)
  else none

/-- Numeric value of one hex digit character (either case), as accepted by
the `\uXXXX` escape decoder. -/
def hexVal (b : Nat) : Option Nat :=
  if 48 ≤ b ∧ b ≤ 57 then some (b - 48)
  else if 97 ≤ b ∧ b ≤ 102 then some (b - 87)
  else if 65 ≤ b ∧ b ≤ 70 then some (b - 55)
  else none

/-- Read four hex digits (the `XXXX` of a `\uXXXX` escape). -/
def parseHex4 : List Nat → Option (Nat × List Nat)
  | a :: b :: c :: d :: rest =>
    match hexVal a, hexVal b, hexVal c, hexVal d with
    | some x, some y, some z, some w => some (x * 4096 + y * 256 + z * 16 + w, rest)
    | _, _, _, _ => none
  | _ => none

/-- The short backslash escapes accepted by `json.loads`. -/
def unescapeShort (b : Nat) : Option Nat :=
  if b = 34 then some 34
  else if b = 92 then some 92
  else if b = 47 then some 47
  else if b = 98 then some 8
  else if b = 102 then some 12
  else if b = 110 then some 10
  else if b = 114 then some 13
  else if b = 116 then some 9
  else none

/-- One step of `json.loads`'s string scanner: `some (none, rest)` is the
closing quote, `some (some c, rest)` yields one decoded character, `none`
is a decode error (invalid escape, bad hex, unescaped control character,
or end of input inside the literal).  High/low `\uXXXX` surrogate escapes
are recombined exactly as CPython's `py_scanstring` does. -/
def parseOneChar : List Nat → Option (Option Nat × List Nat)
  | [] => none
  | b :: rest =>
    if b = 34 then some (none, rest)
    else if b = 92 then
      match rest with
      | [] => none
      | e :: r2 =>
        if e = 117 then
          match parseHex4 r2 with
          | none => none
          | some (h, r3) =>
            if 55296 ≤ h ∧ h < 56320 then
              match r3 with
              | 92 :: 117 :: r4 =>
                match parseHex4 r4 with
                | none => none
                | some (l, r5) =>
                  if 56320 ≤ l ∧ l < 57344 then
                    some (some (65536 + (h - 55296) * 1024 + (l - 56320)), r5)
                  else some (some h, 92 :: 117 :: r4)
              | _ => some (some h, r3)
            else some (some h, r3)
        else
          match unescapeShort e with
          | some c => some (some c, r2)
          | none => none
    else if b < 32 then none
    else some (some b, rest)

/-- Body of a JSON string literal after its opening quote (fuel-indexed;
each step consumes at least one input byte, so `fuel = length + 1`
suffices). -/
def parseJStringBodyF : Nat → List Nat → Option (List Nat × List Nat)
  | 0, _ => none
  | fuel + 1, bs =>
    match parseOneChar bs with
    | none => none
    | some (none, rest) => some ([], rest)
    | some (some c, rest) =>
      match parseJStringBodyF fuel rest with
      | none => none
      | some (s, r) => some (c :: s, r)

/-- Scan a JSON string body (the characters after an opening quote up to
and including the closing quote). -/
def parseJStringBody (bs : List Nat) : Option (List Nat × List Nat) :=
  parseJStringBodyF (bs.length + 1) bs

/-- Skip the JSON whitespace characters (space, tab, newline, carriage
return) that `json.loads` ignores between tokens. -/
def skipWs (bs : List Nat) : List Nat :=
  bs.dropWhile (fun b => (b == 32) || (b == 9) || (b == 10) || (b == 13))

/-- One `"key": "value"` member (string-valued, the only value shape the
messenger's envelopes use). -/
def parsePair (bs : List Nat) : Option ((List Nat × List Nat) × List Nat) :=
  match skipWs bs with
  | 34 :: r =>
    match parseJStringBody r with
    | none => none
    | some (k, r2) =>
      match skipWs r2 with
      | 58 :: r3 =>
        match skipWs r3 with
        | 34 :: r4 =>
          match parseJStringBody r4 with
          | none => none
          | some (v, r5) => some ((k, v), r5)
        | _ => none
      | _ => none
  | _ => none

/-- The members of a JSON object after its `{` (fuel-indexed; each member
consumes at least one byte). -/
def parseMembersF : Nat → List Nat → Option (List (List Nat × List Nat) × List Nat)
  | 0, _ => none
  | fuel + 1, bs =>
    match parsePair bs with
    | none => none
    | some (p, r) =>
      match skipWs r with
      | 44 :: r2 =>
        match parseMembersF fuel r2 with
        | none => none
        | some (ps, r3) => some (p :: ps, r3)
      | 125 :: r2 => some ([p], r2)
      | _ => none

/-- `json.loads` on a complete document that must be an object with string
values (the only documents the messenger exchanges); trailing
non-whitespace input is an error, as in Python. -/
def jsonLoadsObj (bs : List Nat) : Option (List (List Nat × List Nat)) :=
  match skipWs bs with
  | 123 :: r =>
    match skipWs r with
    | 125 :: r2 => if skipWs r2 = [] then some [] else none
    | _ =>
      match parseMembersF (r.length + 1) r with
      | none => none
      | some (ps, rest) => if skipWs rest = [] then some ps else none
  | _ => none

/-- Python-dict lookup on the parsed member list: with duplicate keys the
later binding wins, as in `dict` construction. -/
def dictGet : List (List Nat × List Nat) → List Nat → Option (List Nat)
  | [], _ => none
  | (k, v) :: rest, key =>
    match dictGet rest key with
    | some v2 => some v2
    | none => if k = key then some v else none

/-- `message.get(key, default)`. -/
def dictGetD (d : List (List Nat × List Nat)) (key dflt : List Nat) : List Nat :=
  (dictGet d key).getD dflt

/-- What `LANMessenger._handle_client` extracts from one inbound message
and hands to its sinks: the dispatched type tag, sender username, content
(text body, or base64 text for a file), and the filename for files. -/
structure Received where
  msgType : List Nat
  username : List Nat
  content : List Nat
  filename : Option (List Nat)
deriving DecidableEq

/-- `LANMessenger._handle_client`: read the 8-byte length header with
`_recv_all`, parse it as a decimal, read exactly that many payload bytes,
`json.loads` them, then dispatch on `message.get('type', 'text')`: the
`file` branch requires `filename` and `content` (a `KeyError` aborts the
handler), the text branch defaults `content` to `''`; both default
`username` to `'Unknown'`.  `none` models any caught exception (the
handler logs and closes the connection without delivering anything). -/
def handleClient (conn : List (List Nat)) : Option Received :=
  match recvAll conn 8 with
  | none => none
  | some (lengthBytes, conn2) =>
    match parseDecimal lengthBytes with
    | none => none
    | some msgLength =>
      match recvAll conn2 msgLength with
      | none => none
      | some (dataBytes, _) =>
        match jsonLoadsObj dataBytes with
        | none => none
        | some dict =>
          let msgType := dictGetD dict (asc "type") (asc "text")
          if msgType = asc "file" then
            match dictGet dict (asc "filename"), dictGet dict (asc "content") with
            | some fn, some ct =>
              some ⟨msgType, dictGetD dict (asc "username") (asc "Unknown"), ct, some fn⟩
            | _, _ => none
          else
            some ⟨msgType, dictGetD dict (asc "username") (asc "Unknown"),
                  dictGetD dict (asc "content") [], none⟩

/-- The fields `_handle_client` should report for an envelope: exactly the
envelope's own fields. -/
def receivedOf : Envelope → Received
  | Envelope.text c u => ⟨asc "text", u, c, none⟩
  | Envelope.file u f c => ⟨asc "file", u, c, some f⟩

/- ============ peer registry: main.py / peer_discovery.py ============ -/

/-- One entry of the peer table `{ip: {'username', 'port', 'last_seen'}}`.
Wall-clock time (`time.time()`) is modelled as `ℚ`. -/
structure PeerInfo where
  username : String
  port : Nat
  last_seen : ℚ
deriving DecidableEq

/-- `PeerDiscovery.get_active_peers`: the peers whose `last_seen` is within
the 30-second timeout of `now`. -/
def getActivePeers (peers : List (String × PeerInfo)) (now : ℚ) :
    List (String × PeerInfo) :=
  peers.filter (fun p => decide (now - p.2.last_seen < 30))

/-- One pass of `LANMessenger._prune_inactive_peers`: delete every entry
whose `last_seen` is more than 30 seconds old. -/
def pruneStep (peers : List (String × PeerInfo)) (now : ℚ) :
    List (String × PeerInfo) :=
  peers.filter (fun p => !(decide (now - p.2.last_seen > 30)))

/-- The peer table after `k` pruning passes, the first at time `t0` and one
every 10 seconds after (`prune; time.sleep(10)` loop), with no discovery
refresh in between. -/
def peersAfter (init : List (String × PeerInfo)) (t0 : ℚ) : Nat → List (String × PeerInfo)
  | 0 => init
  | k + 1 => pruneStep (peersAfter init t0 k) (t0 + 10 * k)

/-- Outcome of one `accept()` in `LANMessenger._start_server`: spawn a
`_handle_client` thread, or close the connection immediately (before any
read). -/
inductive ServerAction where
  | reject
  | serve (result : Option Received)
deriving DecidableEq

/-- `addr[0] in self.peers` — key membership in the peer dict. -/
def containsKey (peers : List (String × PeerInfo)) (ip : String) : Bool :=
  peers.any (fun p => p.1 == ip)

/-- The accept-loop body of `_start_server`: a connection from a known peer
IP is handed to `_handle_client`; any other source is closed without
reading a byte. -/
def acceptConnection (peers : List (String × PeerInfo)) (ip : String)
    (conn : List (List Nat)) : ServerAction :=
  if containsKey peers ip then ServerAction.serve (handleClient conn)
  else ServerAction.reject

/- ============ peer_discovery.py: listener and local-ip skip ============ -/

/-- `str.startswith`. -/
def strStarts (s pre : String) : Bool :=
  pre.data.isPrefixOf s.data

/-- `str.split('.')` (accumulator-based, at every dot). -/
def splitDotAux : List Char → List Char → List (List Char)
  | [], acc => [acc.reverse]
  | ch :: rest, acc =>
    if ch = '.' then acc.reverse :: splitDotAux rest []
    else splitDotAux rest (ch :: acc)

/-- `int(cs)` on the octet strings `get_local_ip` feeds it: the value of a
nonempty digit string, `none` for the `ValueError` on anything else. -/
def digitsVal (cs : List Char) : Option Nat :=
  if cs ≠ [] ∧ cs.all Char.isDigit = true then
    some (cs.foldl (fun a ch => a * 10 + (ch.toNat - 48)) 0)
  else none

/-- The private-address test in `PeerDiscovery.get_local_ip`:
`ip.startswith('192.168.') or ip.startswith('10.') or (ip.startswith('172.')
and 16 <= int(ip.split('.')[1]) <= 31)`; `none` models the `ValueError`
`int` raises on a malformed second octet (caught by the surrounding
`except`, which then returns `'127.0.0.1'`). -/
def privCheck (ip : String) : Option Bool :=
  if strStarts ip "192.168." || strStarts ip "10." then some true
  else if strStarts ip "172." then
    match digitsVal ((splitDotAux ip.data []).getD 1 []) with
    | some n => some (decide (16 ≤ n ∧ n ≤ 31))
    | none => none
  else some false

/-- First loop of `get_local_ip`: return the first private address
(`some (some ip)`), fall through when none qualifies (`some none`), or
raise (`none`). -/
def findFirstPrivate : List String → Option (Option String)
  | [] => some none
  | ip :: rest =>
    match privCheck ip with
    | none => none
    | some true => some (some ip)
    | some false => findFirstPrivate rest

/-- Second loop of `get_local_ip`: first address that is not localhost. -/
def findFirstNonLocal : List String → Option String
  | [] => none
  | ip :: rest => if ip = "127.0.0.1" then findFirstNonLocal rest else some ip

/-- `PeerDiscovery.get_local_ip`, with the host's resolved addresses
(`socket.getaddrinfo(hostname, ...)`) as the environment parameter: the
first private address, else the first non-localhost address, else (or on
any exception) `'127.0.0.1'`.  Note it returns a single address even on a
multi-homed host. -/
def getLocalIp (addrs : List String) : String :=
  match findFirstPrivate addrs with
  | none => "127.0.0.1"
  | some (some ip) => ip
  | some none =>
    match findFirstNonLocal addrs with
    | some ip => ip
    | none => "127.0.0.1"

/-- A parsed discovery datagram (the fields `listen_for_peers` reads). -/
structure DiscoveryMsg where
  mtype : String
  username : String
  port : Nat
deriving DecidableEq

/-- One entry of `PeerDiscovery.peers`. -/
structure DiscoveredPeer where
  username : String
  ip : String
  port : Nat
  last_seen : ℚ
deriving DecidableEq

/-- Python dict assignment `peers[k] = v`: replace in place or append. -/
def dictInsert : List (String × DiscoveredPeer) → String → DiscoveredPeer
    → List (String × DiscoveredPeer)
  | [], k, v => [(k, v)]
  | (k', v') :: rest, k, v =>
    if k' = k then (k, v) :: rest else (k', v') :: dictInsert rest k v

/-- Python dict lookup `peers[k]` (keys are unique by construction). -/
def dLookup : List (String × DiscoveredPeer) → String → Option DiscoveredPeer
  | [], _ => none
  | (k', v') :: rest, k => if k' = k then some v' else dLookup rest k

/-- The per-datagram body of `PeerDiscovery.listen_for_peers`: a
`discovery` envelope from a source IP different from `get_local_ip()` is
upserted keyed by the source IP with `last_seen = now`; anything else is
skipped. -/
def listenForPeersStep (hostAddrs : List String)
    (peers : List (String × DiscoveredPeer)) (msg : DiscoveryMsg)
    (srcIp : String) (now : ℚ) : List (String × DiscoveredPeer) :=
  if msg.mtype = "discovery" ∧ srcIp ≠ getLocalIp hostAddrs then
    dictInsert peers srcIp ⟨msg.username, srcIp, msg.port, now⟩
  else peers

/- ============ server.py: relay hub broadcast ============ -/

/-- A client connection of `LANServer`: its identity and whether an
`await websocket.send(...)` to it currently succeeds. -/
structure Conn where
  sid : Nat
  sendOk : Bool
deriving DecidableEq

/-- The loop of `LANServer.broadcast_message`: iterate a snapshot of
`self.peers.items()`, skip the sender's socket, `try` to send to each
other peer and catch (log) per-peer failures; returns the keys actually
delivered to.  The loop touches `self.peers` in no other way. -/
def broadcastDelivered : List (String × Conn) → Conn → List String
  | [], _ => []
  | (k, c) :: rest, sender =>
    if c ≠ sender then
      (if c.sendOk then k :: broadcastDelivered rest sender
       else broadcastDelivered rest sender)
    else broadcastDelivered rest sender

/-- `LANServer.broadcast_message` as a state transformer: the delivered
keys together with the peer map afterwards (the method never mutates
`self.peers`). -/
def broadcastMessageRun (peers : List (String × Conn)) (sender : Conn) :
    List String × List (String × Conn) :=
  (broadcastDelivered peers sender, peers)

/-- The `remove` list collected by `LANServer.broadcast_peer_list`: the
keys whose send raised. -/
def bplRemove : List (String × Conn) → List String
  | [] => []
  | (k, c) :: rest => if c.sendOk then bplRemove rest else k :: bplRemove rest

/-- `self.peers.pop(p, None)`: drop the binding of one key. -/
def popKey : List (String × Conn) → String → List (String × Conn)
  | [], _ => []
  | (k, c) :: rest, key => if k = key then rest else (k, c) :: popKey rest key

/-- The effect of `LANServer.broadcast_peer_list` on the connection map:
send to every client, collect the failing ones, then pop each of them. -/
def broadcastPeerListRun (peers : List (String × Conn)) : List (String × Conn) :=
  (bplRemove peers).foldl popKey peers

/- ============ voicevideo_handler.py: video chunking/reassembly ============ -/

/-- `struct.pack('!I', n)`: big-endian 4-byte unsigned int
(`struct.error` for `n ≥ 2^32`; callers stay below via hypotheses). -/
def pack32 (n : Nat) : List Nat :=
  [n / 16777216 % 256, n / 65536 % 256, n / 256 % 256, n % 256]

/-- `struct.pack('!II?', chunkLen, offset, isLast) + chunk`: the datagram
`_send_video` emits for one chunk of an oversized frame (the `?` bool is
one byte, 1 or 0). -/
def encodeChunkDatagram (off : Nat) (chunk : List Nat) (isLast : Bool) : List Nat :=
  pack32 chunk.length ++ pack32 off ++ [if isLast then 1 else 0] ++ chunk

/-- The chunk loop of `_send_video` for an oversized compressed frame:
`for i in range(0, len(frame_data), 60000)` emits the slice at byte
offset `i` with `is_last = i + 60000 >= len(frame_data)`. -/
def videoChunks (frame : List Nat) (i : Nat) : List (List Nat) :=
  if i < frame.length then
    encodeChunkDatagram i ((frame.drop i).take 60000)
        (decide (frame.length ≤ i + 60000))
      :: videoChunks frame (i + 60000)
  else []
termination_by frame.length - i
decreasing_by simp_wf; omega

/-- `_send_video` per compressed frame: one `[4-byte length][payload]`
datagram when the frame fits in the 60000-byte threshold, else the chunk
datagrams. -/
def sendVideoDatagrams (frame : List Nat) : List (List Nat) :=
  if frame.length ≤ 60000 then [pack32 frame.length ++ frame]
  else videoChunks frame 0

/-- The offset/slice pairs of the chunk loop (the payload content of
`videoChunks`, without the wire header). -/
def canonPairs (frame : List Nat) (i : Nat) : List (Nat × List Nat) :=
  if i < frame.length then
    (i, (frame.drop i).take 60000) :: canonPairs frame (i + 60000)
  else []
termination_by frame.length - i
decreasing_by simp_wf; omega

/-- What `_receive_video` does with one datagram: skipped (`dropped`), a
chunk stored into the reassembly buffer (`buffered`), a full frame
reassembled from the buffer (`reassembled`), or a single-packet frame
(`single`). -/
inductive VideoEvent where
  | dropped
  | buffered
  | reassembled (frame : List Nat)
  | single (frame : List Nat)
deriving DecidableEq

/-- `frame_buffer[frame_id][offset] = chunk_data`: Python dict assignment
on the per-sender chunk buffer. -/
def bufInsert : List (Nat × List Nat) → Nat → List Nat → List (Nat × List Nat)
  | [], off, chunk => [(off, chunk)]
  | (o, c) :: rest, off, chunk =>
    if o = off then (off, chunk) :: rest
    else (o, c) :: bufInsert rest off chunk

/-- Insert one pair into a list sorted by offset. -/
def insertSorted (p : Nat × List Nat) : List (Nat × List Nat) → List (Nat × List Nat)
  | [] => [p]
  | q :: rest => if p.1 ≤ q.1 then p :: q :: rest else q :: insertSorted p rest

/-- `sorted(frame_buffer[frame_id].items())`: dict items ordered by key
(keys are unique, so comparing first components is the full tuple
order). -/
def sortPairs : List (Nat × List Nat) → List (Nat × List Nat)
  | [] => []
  | p :: rest => insertSorted p (sortPairs rest)

/-- `b''.join(chunk for offset, chunk in sorted(...))`: concatenate the
buffered chunks sorted by offset. -/
def reassembleBuf (buf : List (Nat × List Nat)) : List Nat :=
  ((sortPairs buf).map Prod.snd).flatten

/-- `struct.unpack('!II?', data[:9])` (plus the chunk payload slice):
succeeds exactly when at least 9 bytes are present; the bool byte is
nonzero-as-true, as in Python. -/
def parseChunkHeader : List Nat → Option (Nat × Nat × Bool × List Nat)
  | a0 :: a1 :: a2 :: a3 :: o0 :: o1 :: o2 :: o3 :: b :: rest =>
    some (a0 * 16777216 + a1 * 65536 + a2 * 256 + a3,
          o0 * 16777216 + o1 * 65536 + o2 * 256 + o3,
          b != 0, rest)
  | _ => none

/-- `struct.unpack('!I', data[:4])` plus the remainder `data[4:]`. -/
def parseFrameHeader : List Nat → Option (Nat × List Nat)
  | a0 :: a1 :: a2 :: a3 :: rest =>
    some (a0 * 16777216 + a1 * 65536 + a2 * 256 + a3, rest)
  | _ => none

/-- The single-packet fallback of `_receive_video`: a frame whose declared
size fits the datagram is displayed, anything else is ignored. -/
def singleFrameCase (buf : List (Nat × List Nat)) (data : List Nat) :
    List (Nat × List Nat) × VideoEvent :=
  match parseFrameHeader data with
  | some (frameSize, rest) =>
    if frameSize ≤ data.length - 4 then (buf, VideoEvent.single (rest.take frameSize))
    else (buf, VideoEvent.dropped)
  | none => (buf, VideoEvent.dropped)

/-- The per-datagram body of `_receive_video` (for the single sending
peer, whose dict entry the buffer models): datagrams under 4 bytes are
skipped; with at least 9 bytes the chunk header is parsed and, when its
declared size fits, the chunk is buffered at its offset — reassembling,
displaying and clearing the buffer when `is_last` is set; otherwise the
datagram falls through to the single-packet format. -/
def receiveVideoStep (buf : List (Nat × List Nat)) (data : List Nat) :
    List (Nat × List Nat) × VideoEvent :=
  if data.length < 4 then (buf, VideoEvent.dropped)
  else
    match parseChunkHeader data with
    | some (chunkSize, offset, isLast, rest) =>
      if chunkSize ≤ data.length - 9 then
        let buf2 := bufInsert buf offset (rest.take chunkSize)
        if isLast then ([], VideoEvent.reassembled (reassembleBuf buf2))
        else (buf2, VideoEvent.buffered)
      else singleFrameCase buf data
    | none => singleFrameCase buf data

/-- The final offset/slice pair of the chunk loop (the one sent with
`is_last = True`). -/
def lastPair (frame : List Nat) : Nat × List Nat :=
  (canonPairs frame 0).getLastD (0, [])

/-- Fold `receiveVideoStep` over a delivery sequence of datagrams,
collecting the buffer state and the event of each datagram. -/
def receiveVideoRun : List (Nat × List Nat) → List (List Nat)
    → List (Nat × List Nat) × List VideoEvent
  | buf, [] => (buf, [])
  | buf, d :: ds =>
    let r := receiveVideoStep buf d
    let rr := receiveVideoRun r.1 ds
    (rr.1, r.2 :: rr.2)

/- ===================== THEOREMS ===================== -/

theorem recvAllF_spec : ∀ (fuel n : Nat) (s : List (List Nat)), n ≤ fuel →
    (∀ c ∈ s, c ≠ []) →
    ((n ≤ s.flatten.length →
        ∃ s', recvAllF fuel s n = some (s.flatten.take n, s')
            ∧ s'.flatten = s.flatten.drop n ∧ ∀ c ∈ s', c ≠ [])
      ∧ (s.flatten.length < n → recvAllF fuel s n = none)) := by
  intro fuel
  induction fuel with
  | zero =>
    intro n s hfuel hne
    have hn : n = 0 := Nat.le_zero.mp hfuel
    subst hn
    exact ⟨fun _ => ⟨s, by simp [recvAllF], by simp, hne⟩, fun h => absurd h (by omega)⟩
  | succ f ih =>
    intro n s hfuel hne
    match n with
    | 0 =>
      exact ⟨fun _ => ⟨s, by simp [recvAllF], by simp, hne⟩, fun h => absurd h (by omega)⟩
    | n + 1 =>
      match s with
      | [] =>
        refine ⟨fun h => absurd h (by simp), fun _ => ?_⟩
        simp [recvAllF, recvStep]
      | c :: rest =>
        have hc : c ≠ [] := hne c (by simp)
        have hclen : 0 < c.length := List.length_pos.mpr hc
        have hrest : ∀ d ∈ rest, d ≠ [] := fun d hd => hne d (by simp [hd])
        have hflatlen : (c :: rest).flatten.length = c.length + rest.flatten.length := by
          rw [List.flatten_cons, List.length_append]
        by_cases hlen : c.length ≤ n + 1
        · -- the whole head segment is consumed
          have hstep : recvStep (c :: rest) (n + 1) = (c, rest) := by
            simp [recvStep, hlen]
          have hempty : c.isEmpty = false := by
            cases hcc : c with
            | nil => exact absurd hcc hc
            | cons a as => rfl
          have hrec := ih (n + 1 - c.length) rest (by omega) hrest
          constructor
          · intro hge
            have hge' : n + 1 - c.length ≤ rest.flatten.length := by
              rw [hflatlen] at hge; omega
            obtain ⟨s', hs', hflat, hne'⟩ := hrec.1 hge'
            have htake : (c :: rest).flatten.take (n + 1)
                = c ++ rest.flatten.take (n + 1 - c.length) := by
              rw [List.flatten_cons, List.take_append_eq_append_take,
                List.take_of_length_le hlen]
            refine ⟨s', ?_, ?_, hne'⟩
            · simp only [recvAllF, hstep, hempty, Bool.false_eq_true, if_false, hs',
                htake]
            · rw [hflat, List.flatten_cons, List.drop_append_eq_append_drop,
                List.drop_eq_nil_of_le hlen, List.nil_append]
          · intro hlt
            have hlt' : rest.flatten.length < n + 1 - c.length := by
              rw [hflatlen] at hlt; omega
            simp only [recvAllF, hstep, hempty, Bool.false_eq_true, if_false,
              hrec.2 hlt']
        · -- only a prefix of the head segment is needed
          have hstep : recvStep (c :: rest) (n + 1) = (c.take (n + 1), c.drop (n + 1) :: rest) := by
            simp [recvStep, hlen]
          have htklen : (c.take (n + 1)).length = n + 1 := by
            rw [List.length_take]; omega
          have hempty : (c.take (n + 1)).isEmpty = false := by
            cases hcc : c.take (n + 1) with
            | nil => rw [hcc] at htklen; simp at htklen
            | cons a as => rfl
          have hrec0 : recvAllF f (c.drop (n + 1) :: rest) (n + 1 - (c.take (n + 1)).length)
              = some ([], c.drop (n + 1) :: rest) := by
            rw [htklen, Nat.sub_self]
            cases f <;> rfl
          constructor
          · intro _
            have htake : (c :: rest).flatten.take (n + 1) = c.take (n + 1) := by
              rw [List.flatten_cons, List.take_append_eq_append_take,
                Nat.sub_eq_zero_of_le (by omega), List.take_zero, List.append_nil]
            refine ⟨c.drop (n + 1) :: rest, ?_, ?_, ?_⟩
            · simp only [recvAllF, hstep, hempty, Bool.false_eq_true, if_false, hrec0,
                List.append_nil, htake]
            · rw [List.flatten_cons, List.flatten_cons,
                List.drop_append_eq_append_drop, Nat.sub_eq_zero_of_le (by omega),
                List.drop_zero]
            · intro d hd
              rcases List.mem_cons.mp hd with hd | hd
              · subst hd
                intro hnil
                have := congrArg List.length hnil
                rw [List.length_drop] at this
                simp at this
                omega
              · exact hrest d hd
          · intro hlt
            rw [hflatlen] at hlt
            omega

theorem hexVal_hexDigitChar (d : Nat) (h : d < 16) :
    hexVal (hexDigitChar d) = some d := by
  unfold hexDigitChar hexVal
  by_cases h10 : d < 10
  · rw [if_pos h10, if_pos (by omega)]
    exact congrArg some (by omega)
  · rw [if_neg h10, if_neg (by omega), if_pos (by omega)]
    exact congrArg some (by omega)

theorem parseHex4_hex4 (n : Nat) (h : n < 65536) (r : List Nat) :
    parseHex4 (hex4 n ++ r) = some (n, r) := by
  have h1 := hexVal_hexDigitChar (n / 4096 % 16) (Nat.mod_lt _ (by omega))
  have h2 := hexVal_hexDigitChar (n / 256 % 16) (Nat.mod_lt _ (by omega))
  have h3 := hexVal_hexDigitChar (n / 16 % 16) (Nat.mod_lt _ (by omega))
  have h4 := hexVal_hexDigitChar (n % 16) (Nat.mod_lt _ (by omega))
  show parseHex4 (hexDigitChar (n / 4096 % 16) :: hexDigitChar (n / 256 % 16)
    :: hexDigitChar (n / 16 % 16) :: hexDigitChar (n % 16) :: r) = some (n, r)
  simp only [parseHex4, h1, h2, h3, h4]
  exact congrArg some (Prod.ext (by omega) rfl)

theorem parseOneChar_u (X Y : List Nat) (h : Nat) (hp : parseHex4 X = some (h, Y))
    (hhi : ¬ (55296 ≤ h ∧ h < 56320)) :
    parseOneChar (92 :: 117 :: X) = some (some h, Y) := by
  simp only [parseOneChar, if_true, hp]
  rw [if_neg hhi, if_neg (by omega : ¬ (92 : Nat) = 34)]

theorem parseOneChar_u_pair (X Y Z : List Nat) (h l : Nat)
    (hp : parseHex4 X = some (h, 92 :: 117 :: Y)) (hh : 55296 ≤ h ∧ h < 56320)
    (hq : parseHex4 Y = some (l, Z)) (hl : 56320 ≤ l ∧ l < 57344) :
    parseOneChar (92 :: 117 :: X)
      = some (some (65536 + (h - 55296) * 1024 + (l - 56320)), Z) := by
  simp only [parseOneChar, if_true, hp]
  rw [if_pos hh]
  simp only [hq]
  rw [if_pos hl, if_neg (by omega : ¬ (92 : Nat) = 34)]

theorem parseOneChar_escapeChar (c : Nat) (hv : validCodepointB c = true)
    (r : List Nat) : parseOneChar (escapeChar c ++ r) = some (some c, r) := by
  have hval : c < 1114112 ∧ (c < 55296 ∨ 57344 ≤ c) := by
    simp only [validCodepointB, Bool.and_eq_true, Bool.not_eq_true', Bool.and_eq_false_iff,
      decide_eq_true_eq, decide_eq_false_iff_not] at hv
    omega
  by_cases h34 : c = 34
  · subst h34; simp [escapeChar, parseOneChar, unescapeShort]
  by_cases h92 : c = 92
  · subst h92; simp [escapeChar, parseOneChar, unescapeShort]
  by_cases h8 : c = 8
  · subst h8; simp [escapeChar, parseOneChar, unescapeShort]
  by_cases h12 : c = 12
  · subst h12; simp [escapeChar, parseOneChar, unescapeShort]
  by_cases h10 : c = 10
  · subst h10; simp [escapeChar, parseOneChar, unescapeShort]
  by_cases h13 : c = 13
  · subst h13; simp [escapeChar, parseOneChar, unescapeShort]
  by_cases h9 : c = 9
  · subst h9; simp [escapeChar, parseOneChar, unescapeShort]
  by_cases hprint : 32 ≤ c ∧ c ≤ 126
  · have hesc : escapeChar c = [c] := by
      unfold escapeChar
      rw [if_neg h34, if_neg h92, if_neg h8, if_neg h12, if_neg h10, if_neg h13,
        if_neg h9, if_pos hprint]
    rw [hesc]
    show parseOneChar (c :: r) = some (some c, r)
    simp only [parseOneChar]
    rw [if_neg h34, if_neg h92, if_neg (by omega : ¬ c < 32)]
  by_cases hbmp : c < 65536
  · have hesc : escapeChar c = 92 :: 117 :: hex4 c := by
      unfold escapeChar
      rw [if_neg h34, if_neg h92, if_neg h8, if_neg h12, if_neg h10, if_neg h13,
        if_neg h9, if_neg hprint, if_pos hbmp]
    rw [hesc, List.cons_append, List.cons_append]
    exact parseOneChar_u _ _ c (parseHex4_hex4 c hbmp r) (by omega)
  · have hesc : escapeChar c = (92 :: 117 :: hex4 (55296 + (c - 65536) / 1024))
        ++ (92 :: 117 :: hex4 (56320 + (c - 65536) % 1024)) := by
      unfold escapeChar
      rw [if_neg h34, if_neg h92, if_neg h8, if_neg h12, if_neg h10, if_neg h13,
        if_neg h9, if_neg hprint, if_neg hbmp]
    have hhi : 55296 + (c - 65536) / 1024 < 65536 := by omega
    have hlo : 56320 + (c - 65536) % 1024 < 65536 := by omega
    rw [hesc, List.append_assoc, List.cons_append, List.cons_append,
      List.cons_append, List.cons_append]
    rw [parseOneChar_u_pair _ _ r (55296 + (c - 65536) / 1024)
      (56320 + (c - 65536) % 1024) (parseHex4_hex4 _ hhi _) (by omega)
      (parseHex4_hex4 _ hlo _) (by omega)]
    have hval2 : 65536 + (55296 + (c - 65536) / 1024 - 55296) * 1024
        + (56320 + (c - 65536) % 1024 - 56320) = c := by omega
    rw [hval2]

theorem escapeChar_length_pos (c : Nat) : 1 ≤ (escapeChar c).length := by
  unfold escapeChar
  split
  · simp
  · split
    · simp
    · split
      · simp
      · split
        · simp
        · split
          · simp
          · split
            · simp
            · split
              · simp
              · split
                · simp
                · split
                  · simp [hex4]
                  · simp [hex4]

theorem escString_length_ge (s : List Nat) : s.length ≤ (escString s).length := by
  induction s with
  | nil => simp [escString]
  | cons c cs ih =>
    have := escapeChar_length_pos c
    simp only [escString, List.map_cons, List.flatten_cons, List.length_append,
      List.length_cons]
    simp only [escString] at ih
    omega

theorem parseJStringBodyF_rt : ∀ (s : List Nat), validStr s = true →
    ∀ (fuel : Nat) (tail : List Nat), s.length < fuel →
    parseJStringBodyF fuel (escString s ++ 34 :: tail) = some (s, tail) := by
  intro s
  induction s with
  | nil =>
    intro _ fuel tail hf
    match fuel, hf with
    | fuel + 1, _ =>
      show parseJStringBodyF (fuel + 1) (34 :: tail) = some ([], tail)
      rfl
  | cons c cs ih =>
    intro hv fuel tail hf
    have hvc : validCodepointB c = true := by
      simp only [validStr, List.all_cons, Bool.and_eq_true] at hv
      exact hv.1
    have hvcs : validStr cs = true := by
      simp only [validStr, List.all_cons, Bool.and_eq_true] at hv
      exact hv.2
    match fuel, hf with
    | fuel + 1, hf =>
      have harr : escString (c :: cs) ++ 34 :: tail
          = escapeChar c ++ (escString cs ++ 34 :: tail) := by
        simp [escString, List.append_assoc]
      rw [harr]
      simp only [parseJStringBodyF, parseOneChar_escapeChar c hvc,
        ih hvcs fuel tail (by simpa using hf)]

theorem parseJStringBody_rt (s : List Nat) (hv : validStr s = true) (tail : List Nat) :
    parseJStringBody (escString s ++ 34 :: tail) = some (s, tail) := by
  have h := escString_length_ge s
  refine parseJStringBodyF_rt s hv _ tail ?_
  rw [List.length_append, List.length_cons]
  omega

theorem skipWs_34 (x : List Nat) : skipWs (34 :: x) = 34 :: x := by
  simp [skipWs, List.dropWhile_cons]

theorem skipWs_58 (x : List Nat) : skipWs (58 :: x) = 58 :: x := by
  simp [skipWs, List.dropWhile_cons]

theorem skipWs_44 (x : List Nat) : skipWs (44 :: x) = 44 :: x := by
  simp [skipWs, List.dropWhile_cons]

theorem skipWs_125 (x : List Nat) : skipWs (125 :: x) = 125 :: x := by
  simp [skipWs, List.dropWhile_cons]

theorem skipWs_123 (x : List Nat) : skipWs (123 :: x) = 123 :: x := by
  simp [skipWs, List.dropWhile_cons]

theorem skipWs_32 (x : List Nat) : skipWs (32 :: x) = skipWs x := by
  simp [skipWs, List.dropWhile_cons]

theorem skipWs_nil : skipWs [] = [] := rfl

theorem parsePair_rt (k v : List Nat) (hk : validStr k = true) (hv : validStr v = true)
    (rest : List Nat) : parsePair (itemEnc (k, v) ++ rest) = some ((k, v), rest) := by
  have harr : itemEnc (k, v) ++ rest
      = 34 :: (escString k ++ 34 :: (58 :: 32 :: 34 :: (escString v ++ 34 :: rest))) := by
    simp [itemEnc, encodeJString, List.append_assoc]
  rw [harr]
  simp only [parsePair, skipWs_34, parseJStringBody_rt k hk, skipWs_58, skipWs_32,
    parseJStringBody_rt v hv]

theorem parsePair_ws32 (x : List Nat) : parsePair (32 :: x) = parsePair x := by
  unfold parsePair
  rw [skipWs_32]

theorem parseMembersF_ws32 (fuel : Nat) (x : List Nat) :
    parseMembersF fuel (32 :: x) = parseMembersF fuel x := by
  cases fuel with
  | zero => rfl
  | succ f => simp only [parseMembersF, parsePair_ws32]

theorem parseMembersF_rt : ∀ (pairs : List (List Nat × List Nat)), pairs ≠ [] →
    (∀ p ∈ pairs, validStr p.1 = true ∧ validStr p.2 = true) →
    ∀ (fuel : Nat) (tail : List Nat), pairs.length ≤ fuel →
    parseMembersF fuel (encodeMembers pairs ++ 125 :: tail) = some (pairs, tail) := by
  intro pairs
  induction pairs with
  | nil => intro h; exact absurd rfl h
  | cons p ps ih =>
    intro _ hval fuel tail hfuel
    have hp := hval p (by simp)
    match fuel, hfuel with
    | fuel + 1, hfuel =>
      cases ps with
      | nil =>
        have hM : encodeMembers [p] = itemEnc p := by
          simp [encodeMembers, joinComma]
        rw [hM]
        simp only [parseMembersF, parsePair_rt p.1 p.2 hp.1 hp.2, skipWs_125]
      | cons q qs =>
        have hM : encodeMembers (p :: q :: qs) ++ 125 :: tail
            = itemEnc p ++ (44 :: 32 :: (encodeMembers (q :: qs) ++ 125 :: tail)) := by
          simp [encodeMembers, joinComma, List.append_assoc]
        rw [hM]
        have hrec := ih (by simp) (fun r hr => hval r (by simp [hr])) fuel tail
          (by simpa using hfuel)
        simp only [parseMembersF, parsePair_rt p.1 p.2 hp.1 hp.2, skipWs_44,
          parseMembersF_ws32, hrec]

theorem encodeJString_length (s : List Nat) :
    (encodeJString s).length = (escString s).length + 2 := by
  simp [encodeJString]

theorem itemEnc_length_pos (p : List Nat × List Nat) : 1 ≤ (itemEnc p).length := by
  simp [itemEnc, encodeJString]

theorem encodeMembers_length_ge : ∀ (pairs : List (List Nat × List Nat)),
    pairs.length ≤ (encodeMembers pairs).length := by
  intro pairs
  induction pairs with
  | nil => simp [encodeMembers, joinComma]
  | cons p ps ih =>
    cases ps with
    | nil =>
      have := itemEnc_length_pos p
      simp only [encodeMembers, List.map_cons, List.map_nil, joinComma, List.length_cons,
        List.length_nil]
      omega
    | cons q qs =>
      have h1 := itemEnc_length_pos p
      have hM : encodeMembers (p :: q :: qs)
          = itemEnc p ++ [44, 32] ++ encodeMembers (q :: qs) := by
        simp [encodeMembers, joinComma]
      rw [hM]
      simp only [List.length_append, List.length_cons, List.length_nil] at *
      omega

theorem itemEnc_cons_shape (p : List Nat × List Nat) (x : List Nat) :
    itemEnc p ++ x = 34 :: (escString p.1 ++ 34 :: (58 :: 32 :: (encodeJString p.2 ++ x))) := by
  simp [itemEnc, encodeJString, List.append_assoc]

theorem jsonLoadsObj_encodeObj (pairs : List (List Nat × List Nat)) (hne : pairs ≠ [])
    (hval : ∀ p ∈ pairs, validStr p.1 = true ∧ validStr p.2 = true) :
    jsonLoadsObj (encodeObj pairs) = some pairs := by
  match pairs, hne with
  | p :: ps, _ =>
    have hshape : ∃ T, encodeMembers (p :: ps) ++ [125] = 34 :: T := by
      cases ps with
      | nil =>
        exact ⟨escString p.1 ++ 34 :: (58 :: 32 :: (encodeJString p.2 ++ [125])), by
          rw [show encodeMembers [p] = itemEnc p by simp [encodeMembers, joinComma],
            itemEnc_cons_shape]⟩
      | cons q qs =>
        exact ⟨escString p.1 ++ 34 :: (58 :: 32 :: (encodeJString p.2
            ++ ([44, 32] ++ (encodeMembers (q :: qs) ++ [125])))), by
          rw [show encodeMembers (p :: q :: qs) ++ [125]
              = itemEnc p ++ ([44, 32] ++ (encodeMembers (q :: qs) ++ [125])) by
            simp [encodeMembers, joinComma, List.append_assoc],
            itemEnc_cons_shape]⟩
    obtain ⟨T, hT⟩ := hshape
    have hrt := parseMembersF_rt (p :: ps) (by simp) hval
      ((encodeMembers (p :: ps) ++ [125]).length + 1) []
      (by
        have h1 := encodeMembers_length_ge (p :: ps)
        have h2 : (p :: ps).length = ps.length + 1 := by simp
        have h3 : (encodeMembers (p :: ps) ++ [125]).length
            = (encodeMembers (p :: ps)).length + 1 := by simp
        omega)
    have hobj : encodeObj (p :: ps) = 123 :: (encodeMembers (p :: ps) ++ [125]) := by
      simp [encodeObj]
    rw [hobj]
    simp only [jsonLoadsObj, skipWs_123, hT, skipWs_34]
    rw [← hT]
    simp only [hrt, skipWs_nil, if_true]

theorem natDigitsAux_ne_nil : ∀ (fuel n : Nat), natDigitsAux fuel n ≠ [] := by
  intro fuel n
  cases fuel with
  | zero => simp [natDigitsAux]
  | succ f =>
    by_cases h : n < 10
    · simp [natDigitsAux, h]
    · simp [natDigitsAux, h]

theorem natDigitsAux_all_digits : ∀ (fuel n : Nat),
    (natDigitsAux fuel n).all isDigitByte = true := by
  intro fuel
  induction fuel with
  | zero =>
    intro n
    have : n % 10 < 10 := Nat.mod_lt _ (by omega)
    simp only [natDigitsAux, List.all_cons, List.all_nil, Bool.and_true, isDigitByte,
      decide_eq_true_eq]
    omega
  | succ f ih =>
    intro n
    by_cases h : n < 10
    · simp only [natDigitsAux, if_pos h, List.all_cons, List.all_nil, Bool.and_true,
        isDigitByte, decide_eq_true_eq]
      omega
    · have : n % 10 < 10 := Nat.mod_lt _ (by omega)
      simp only [natDigitsAux, if_neg h, List.all_append, List.all_cons, List.all_nil,
        Bool.and_true, Bool.and_eq_true, isDigitByte, decide_eq_true_eq]
      exact ⟨by simpa [isDigitByte] using ih (n / 10), by omega⟩

theorem natDigitsAux_foldl : ∀ (fuel n : Nat), n < 10 ^ (fuel + 1) → ∀ (acc : Nat),
    (natDigitsAux fuel n).foldl (fun a b => a * 10 + (b - 48)) acc
      = acc * 10 ^ (natDigitsAux fuel n).length + n := by
  intro fuel
  induction fuel with
  | zero =>
    intro n hn acc
    have h10 : n < 10 := by
      have hp : (10 : Nat) ^ 1 = 10 := by norm_num
      omega
    simp only [natDigitsAux, List.foldl_cons, List.foldl_nil, List.length_cons,
      List.length_nil, pow_one]
    omega
  | succ f ih =>
    intro n hn acc
    by_cases h : n < 10
    · simp only [natDigitsAux, if_pos h, List.foldl_cons, List.foldl_nil,
        List.length_cons, List.length_nil, pow_one]
      omega
    · have hdiv : n / 10 < 10 ^ (f + 1) := by
        apply Nat.div_lt_of_lt_mul
        calc n < 10 ^ (f + 2) := hn
        _ = 10 * 10 ^ (f + 1) := by rw [← pow_succ']
      have hrec := ih (n / 10) hdiv acc
      simp only [natDigitsAux, if_neg h, List.foldl_append, List.foldl_cons,
        List.foldl_nil, List.length_append, List.length_cons, List.length_nil, hrec]
      have hd48 : 48 + n % 10 - 48 = n % 10 := by omega
      rw [hd48, pow_succ]
      set L := (natDigitsAux f (n / 10)).length with hL
      set d := n / 10 with hd
      set m := n % 10 with hm
      have hmod : 10 * d + m = n := Nat.div_add_mod n 10
      calc (acc * 10 ^ L + d) * 10 + m = acc * (10 ^ L * 10) + (10 * d + m) := by ring
      _ = acc * (10 ^ L * 10) + n := by rw [hmod]

theorem natDigits_value (n : Nat) :
    (natDigits n).foldl (fun a b => a * 10 + (b - 48)) 0 = n := by
  have h1 : n < 2 ^ n := Nat.lt_two_pow n
  have h2 : (2 : Nat) ^ n ≤ 10 ^ n := Nat.pow_le_pow_left (by omega) n
  have h3 : (10 : Nat) ^ n ≤ 10 ^ (n + 1) := Nat.pow_le_pow_right (by omega) (by omega)
  have := natDigitsAux_foldl n n (by omega) 0
  simpa using this

theorem natDigitsAux_length_le : ∀ (fuel n k : Nat), 1 ≤ k → n < 10 ^ k →
    (natDigitsAux fuel n).length ≤ k := by
  intro fuel
  induction fuel with
  | zero =>
    intro n k hk _
    simp only [natDigitsAux, List.length_cons, List.length_nil]
    omega
  | succ f ih =>
    intro n k hk hn
    by_cases h : n < 10
    · simp only [natDigitsAux, if_pos h, List.length_cons, List.length_nil]
      omega
    · have hk2 : 2 ≤ k := by
        rcases Nat.lt_or_ge k 2 with hlt | hge
        · interval_cases k
          omega
        · exact hge
      have hdiv : n / 10 < 10 ^ (k - 1) := by
        apply Nat.div_lt_of_lt_mul
        calc n < 10 ^ k := hn
        _ = 10 * 10 ^ (k - 1) := by
            rw [← pow_succ']
            congr 1
            omega
      have := ih (n / 10) (k - 1) (by omega) hdiv
      simp only [natDigitsAux, if_neg h, List.length_append, List.length_cons,
        List.length_nil]
      omega

theorem lengthHeader_length (n : Nat) (h : n < 100000000) :
    (lengthHeader n).length = 8 := by
  have hle := natDigitsAux_length_le n n 8 (by omega) (by norm_num; omega)
  have hne := natDigitsAux_ne_nil n n
  have hpos : 1 ≤ (natDigitsAux n n).length := List.length_pos.mpr hne
  simp only [lengthHeader, natDigits, List.length_append, List.length_replicate]
  omega

theorem parseDecimal_lengthHeader (n : Nat) : parseDecimal (lengthHeader n) = some n := by
  have hall : (lengthHeader n).all isDigitByte = true := by
    simp only [lengthHeader, List.all_append, Bool.and_eq_true]
    constructor
    · simp only [List.all_eq_true]
      intro b hb
      rw [List.eq_of_mem_replicate hb]
      simp [isDigitByte]
    · exact natDigitsAux_all_digits n n
  have hne : lengthHeader n ≠ [] := by
    intro hcon
    have := congrArg List.length hcon
    simp only [lengthHeader, natDigits, List.length_append, List.length_replicate,
      List.length_nil] at this
    have := List.length_pos.mpr (natDigitsAux_ne_nil n n)
    omega
  unfold parseDecimal
  rw [if_pos ⟨hne, hall⟩]
  congr 1
  have hzeros : ∀ (k : Nat),
      (List.replicate k 48).foldl (fun a b => a * 10 + (b - 48)) 0 = 0 := by
    intro k
    induction k with
    | zero => rfl
    | succ j ih => simpa [List.replicate_succ] using ih
  simp only [lengthHeader, List.foldl_append, hzeros]
  exact natDigits_value n

theorem frame_recv (P : List Nat) (hlen : P.length < 100000000) :
    ∃ s2 s3, recvAll [sendWithLength P] 8 = some (lengthHeader P.length, s2)
      ∧ recvAll s2 P.length = some (P, s3) := by
  have hH : (lengthHeader P.length).length = 8 := lengthHeader_length _ hlen
  have hne1 : ∀ c ∈ [sendWithLength P], c ≠ [] := by
    intro c hc
    simp only [List.mem_singleton] at hc
    subst hc
    intro hcon
    have hlc := congrArg List.length hcon
    simp only [sendWithLength, List.length_append, hH, List.length_nil] at hlc
    omega
  have hflat : ([sendWithLength P] : List (List Nat)).flatten = sendWithLength P := by
    simp
  have hlen8 : 8 ≤ ([sendWithLength P] : List (List Nat)).flatten.length := by
    rw [hflat]
    simp only [sendWithLength, List.length_append, hH]
    omega
  obtain ⟨s2, hr1, hflat2, hne2⟩ :=
    (recvAllF_spec 8 8 [sendWithLength P] (le_refl 8) hne1).1 hlen8
  rw [hflat] at hr1 hflat2
  have htake : (sendWithLength P).take 8 = lengthHeader P.length := by
    simp only [sendWithLength]
    rw [List.take_append_eq_append_take, List.take_of_length_le (le_of_eq hH),
      show 8 - (lengthHeader P.length).length = 0 by rw [hH], List.take_zero,
      List.append_nil]
  have hdrop : (sendWithLength P).drop 8 = P := by
    simp only [sendWithLength]
    rw [List.drop_append_eq_append_drop, List.drop_eq_nil_of_le (le_of_eq hH),
      show 8 - (lengthHeader P.length).length = 0 by rw [hH], List.drop_zero,
      List.nil_append]
  rw [htake] at hr1
  rw [hdrop] at hflat2
  have hlenP : P.length ≤ s2.flatten.length := by rw [hflat2]
  obtain ⟨s3, hr2, _, _⟩ :=
    (recvAllF_spec P.length P.length s2 (le_refl _) hne2).1 hlenP
  rw [hflat2, List.take_length] at hr2
  exact ⟨s2, s3, hr1, hr2⟩

theorem handleClient_frame_json (P : List Nat) (pairs : List (List Nat × List Nat))
    (hlen : P.length < 100000000) (hjson : jsonLoadsObj P = some pairs) :
    handleClient [sendWithLength P]
      = (if dictGetD pairs (asc "type") (asc "text") = asc "file" then
           match dictGet pairs (asc "filename"), dictGet pairs (asc "content") with
           | some fn, some ct =>
             some ⟨dictGetD pairs (asc "type") (asc "text"),
                   dictGetD pairs (asc "username") (asc "Unknown"), ct, some fn⟩
           | _, _ => none
         else
           some ⟨dictGetD pairs (asc "type") (asc "text"),
                 dictGetD pairs (asc "username") (asc "Unknown"),
                 dictGetD pairs (asc "content") [], none⟩) := by
  obtain ⟨s2, s3, h1, h2⟩ := frame_recv P hlen
  simp only [handleClient, h1, parseDecimal_lengthHeader, h2, hjson]

/-- C2 (amended).  For every text or file envelope (whose serialized JSON
stays under the 10^8-byte capacity of the 8-byte decimal length header),
serializing it, framing it with the zero-padded length header, and
receiving it through `_recv_all` + header parse + `json.loads` + the
type-dispatch of `_handle_client` reproduces the original envelope fields
(type, content, username, filename) exactly. -/
theorem c2_envelope_roundtrip (e : Envelope) (hv : validEnvelope e = true)
    (hlen : (serializeEnvelope e).length < 100000000) :
    handleClient [sendWithLength (serializeEnvelope e)] = some (receivedOf e) := by
  cases e with
  | text c u =>
    have hc : validStr c = true := by
      simp only [validEnvelope, Bool.and_eq_true] at hv
      exact hv.1
    have hu : validStr u = true := by
      simp only [validEnvelope, Bool.and_eq_true] at hv
      exact hv.2
    have hjson : jsonLoadsObj (serializeEnvelope (Envelope.text c u))
        = some [(asc "type", asc "text"), (asc "content", c), (asc "username", u)] := by
      apply jsonLoadsObj_encodeObj _ (by simp)
      intro p hp
      rcases List.mem_cons.mp hp with h | hp
      · subst h; exact ⟨by decide, by decide⟩
      rcases List.mem_cons.mp hp with h | hp
      · subst h; exact ⟨(by decide : validStr (asc "content") = true), hc⟩
      rcases List.mem_cons.mp hp with h | hp
      · subst h; exact ⟨(by decide : validStr (asc "username") = true), hu⟩
      · simp at hp
    rw [handleClient_frame_json _ _ hlen hjson]
    have n_ut : (asc "username" = asc "type") = False := by decide
    have n_ct : (asc "content" = asc "type") = False := by decide
    have n_uc : (asc "username" = asc "content") = False := by decide
    have n_tf : (asc "text" = asc "file") = False := by decide
    have g1 : dictGet [(asc "type", asc "text"), (asc "content", c), (asc "username", u)]
        (asc "type") = some (asc "text") := by
      simp only [dictGet, n_ut, n_ct, if_false, eq_self_iff_true, if_true]
    have g2 : dictGet [(asc "type", asc "text"), (asc "content", c), (asc "username", u)]
        (asc "content") = some c := by
      simp only [dictGet, n_uc, if_false, eq_self_iff_true, if_true]
    have g3 : dictGet [(asc "type", asc "text"), (asc "content", c), (asc "username", u)]
        (asc "username") = some u := by
      simp only [dictGet, eq_self_iff_true, if_true]
    simp only [dictGetD, g1, g2, g3, Option.getD_some, n_tf, if_false, receivedOf]
  | file u f c =>
    have hu : validStr u = true := by
      simp only [validEnvelope, Bool.and_eq_true] at hv
      exact hv.1.1
    have hf : validStr f = true := by
      simp only [validEnvelope, Bool.and_eq_true] at hv
      exact hv.1.2
    have hc : validStr c = true := by
      simp only [validEnvelope, Bool.and_eq_true] at hv
      exact hv.2
    have hjson : jsonLoadsObj (serializeEnvelope (Envelope.file u f c))
        = some [(asc "type", asc "file"), (asc "username", u),
                (asc "filename", f), (asc "content", c)] := by
      apply jsonLoadsObj_encodeObj _ (by simp)
      intro p hp
      rcases List.mem_cons.mp hp with h | hp
      · subst h; exact ⟨by decide, by decide⟩
      rcases List.mem_cons.mp hp with h | hp
      · subst h; exact ⟨(by decide : validStr (asc "username") = true), hu⟩
      rcases List.mem_cons.mp hp with h | hp
      · subst h; exact ⟨(by decide : validStr (asc "filename") = true), hf⟩
      rcases List.mem_cons.mp hp with h | hp
      · subst h; exact ⟨(by decide : validStr (asc "content") = true), hc⟩
      · simp at hp
    rw [handleClient_frame_json _ _ hlen hjson]
    have n_cty : (asc "content" = asc "type") = False := by decide
    have n_fty : (asc "filename" = asc "type") = False := by decide
    have n_uty : (asc "username" = asc "type") = False := by decide
    have n_cfn : (asc "content" = asc "filename") = False := by decide
    have n_ufn : (asc "username" = asc "filename") = False := by decide
    have n_cu : (asc "content" = asc "username") = False := by decide
    have n_fu : (asc "filename" = asc "username") = False := by decide
    have n_ff : (asc "file" = asc "file") = True := by decide
    have g1 : dictGet [(asc "type", asc "file"), (asc "username", u),
        (asc "filename", f), (asc "content", c)] (asc "type") = some (asc "file") := by
      simp only [dictGet, n_cty, n_fty, n_uty, if_false, eq_self_iff_true, if_true]
    have g2 : dictGet [(asc "type", asc "file"), (asc "username", u),
        (asc "filename", f), (asc "content", c)] (asc "filename") = some f := by
      simp only [dictGet, n_cfn, n_ufn, if_false, eq_self_iff_true, if_true]
    have g3 : dictGet [(asc "type", asc "file"), (asc "username", u),
        (asc "filename", f), (asc "content", c)] (asc "content") = some c := by
      simp only [dictGet, eq_self_iff_true, if_true]
    have g4 : dictGet [(asc "type", asc "file"), (asc "username", u),
        (asc "filename", f), (asc "content", c)] (asc "username") = some u := by
      simp only [dictGet, n_cu, n_fu, if_false, eq_self_iff_true, if_true]
    simp only [dictGetD, g1, g2, g3, g4, Option.getD_some, n_ff, if_true, receivedOf]

/-- Witness for `c2_envelope_roundtrip` on the envelope
`{type: text, content: "hi", username: "A"}`. -/
theorem c2_envelope_roundtrip_witness :
    validEnvelope (Envelope.text (asc "hi") (asc "A")) = true ∧
    (serializeEnvelope (Envelope.text (asc "hi") (asc "A"))).length < 100000000 ∧
    handleClient [sendWithLength (serializeEnvelope (Envelope.text (asc "hi") (asc "A")))]
      = some ⟨asc "text", asc "A", asc "hi", none⟩ :=
  ⟨by decide, by decide,
    c2_envelope_roundtrip (Envelope.text (asc "hi") (asc "A")) (by decide) (by decide)⟩

theorem escString_replicate97 : ∀ (n : Nat),
    escString (List.replicate n 97) = List.replicate n 97 := by
  intro n
  induction n with
  | zero => rfl
  | succ k ih =>
    rw [List.replicate_succ]
    have hstep : escString (97 :: List.replicate k 97)
        = escapeChar 97 ++ escString (List.replicate k 97) := by
      simp [escString]
    rw [hstep, ih, show escapeChar 97 = [97] by decide]
    rfl

theorem validStr_replicate97 (n : Nat) : validStr (List.replicate n 97) = true := by
  simp only [validStr, List.all_eq_true]
  intro c hc
  rw [List.eq_of_mem_replicate hc]
  decide

theorem jsonLoadsObj_56 (X : List Nat) : jsonLoadsObj (56 :: X) = none := by
  have hws : skipWs (56 :: X) = 56 :: X := by
    simp [skipWs, List.dropWhile_cons]
  simp only [jsonLoadsObj, hws]

theorem serializeEnvelope_text_length (c u : List Nat) :
    (serializeEnvelope (Envelope.text c u)).length
      = 47 + (escString c).length + (escString u).length := by
  have l1 : (escString (asc "type")).length = 4 := by decide
  have l2 : (escString (asc "text")).length = 4 := by decide
  have l3 : (escString (asc "content")).length = 7 := by decide
  have l4 : (escString (asc "username")).length = 8 := by decide
  simp only [serializeEnvelope, encodeObj, encodeMembers, List.map_cons, List.map_nil,
    joinComma, itemEnc, encodeJString, List.length_append, List.length_cons,
    List.length_nil, l1, l2, l3, l4]
  omega

theorem handleClient_oversized (P : List Nat) (hlenP : P.length = 100000048) :
    handleClient [sendWithLength P] = none := by
  have hH : lengthHeader 100000048 = [49, 48, 48, 48, 48, 48, 48, 52, 56] := by decide
  have hF : sendWithLength P = [49, 48, 48, 48, 48, 48, 48, 52, 56] ++ P := by
    rw [sendWithLength, hlenP, hH]
  have hne1 : ∀ c ∈ [sendWithLength P], c ≠ [] := by
    intro c hc
    simp only [List.mem_singleton] at hc
    subst hc
    rw [hF]
    simp
  have hflat : ([sendWithLength P] : List (List Nat)).flatten = sendWithLength P := by
    simp
  obtain ⟨s2, hr1, hflat2, hne2⟩ :=
    (recvAllF_spec 8 8 [sendWithLength P] (le_refl 8) hne1).1
      (by rw [hflat, hF]; simp)
  rw [hflat] at hr1 hflat2
  have htake : (sendWithLength P).take 8 = [49, 48, 48, 48, 48, 48, 48, 52] := by
    rw [hF, List.take_append_eq_append_take,
      show List.take 8 [49, 48, 48, 48, 48, 48, 48, 52, 56]
        = [49, 48, 48, 48, 48, 48, 48, 52] by decide,
      show (8 : Nat) - ([49, 48, 48, 48, 48, 48, 48, 52, 56] : List Nat).length = 0 by decide,
      List.take_zero, List.append_nil]
  have hdrop : (sendWithLength P).drop 8 = 56 :: P := by
    rw [hF, List.drop_append_eq_append_drop,
      show List.drop 8 [49, 48, 48, 48, 48, 48, 48, 52, 56] = [56] by decide,
      show (8 : Nat) - ([49, 48, 48, 48, 48, 48, 48, 52, 56] : List Nat).length = 0 by decide,
      List.drop_zero]
    rfl
  rw [htake] at hr1
  rw [hdrop] at hflat2
  have hpd : parseDecimal [49, 48, 48, 48, 48, 48, 48, 52] = some 10000004 := by decide
  obtain ⟨s3, hr2, _, _⟩ :=
    (recvAllF_spec 10000004 10000004 s2 (le_refl _) hne2).1
      (by rw [hflat2]; simp only [List.length_cons, hlenP]; omega)
  rw [hflat2] at hr2
  have htk : (56 :: P).take 10000004 = 56 :: P.take 10000003 := by
    rw [show (10000004 : Nat) = 10000003 + 1 from rfl]
    rfl
  rw [htk] at hr2
  have hr1' : recvAll [sendWithLength P] 8
      = some ([49, 48, 48, 48, 48, 48, 48, 52], s2) := hr1
  have hr2' : recvAll s2 10000004 = some (56 :: List.take 10000003 P, s3) := hr2
  simp only [handleClient, hr1', hpd, hr2', jsonLoadsObj_56]

/-- C2 (counterexample).  The framing is not an 8-byte header for every
envelope: a text envelope whose content is 10^8 repetitions of `'a'`
serializes to 100000048 bytes, `f"{n:08}"` then emits a 9-digit header,
the receiver reads only its first 8 digits as the length, and the
decode path fails (`json.loads` chokes on the leftover digit), so the
original fields are not reproduced. -/
theorem c2_oversized_counterexample :
    validEnvelope (Envelope.text (List.replicate 100000000 97) (asc "A")) = true ∧
    handleClient [sendWithLength (serializeEnvelope
        (Envelope.text (List.replicate 100000000 97) (asc "A")))] = none ∧
    handleClient [sendWithLength (serializeEnvelope
        (Envelope.text (List.replicate 100000000 97) (asc "A")))]
      ≠ some (receivedOf (Envelope.text (List.replicate 100000000 97) (asc "A"))) := by
  have hval : validEnvelope (Envelope.text (List.replicate 100000000 97) (asc "A")) = true := by
    simp only [validEnvelope, Bool.and_eq_true]
    exact ⟨validStr_replicate97 _, by decide⟩
  have hlenP : (serializeEnvelope
      (Envelope.text (List.replicate 100000000 97) (asc "A"))).length = 100000048 := by
    rw [serializeEnvelope_text_length, escString_replicate97,
      show (escString (asc "A")).length = 1 by decide, List.length_replicate]
  have hnone := handleClient_oversized _ hlenP
  refine ⟨hval, hnone, ?_⟩
  rw [hnone]
  intro hcon
  exact Option.noConfusion hcon

/-- C3.  For every declared length `n` and every partition of the incoming
bytes into successive nonempty reads, `_recv_all` returns exactly the
first `n` bytes (a list of length `n`, leaving the rest queued) when at
least `n` bytes arrive before the connection closes, and raises the
`EOFError` truncation error (`none`) when the connection closes first. -/
theorem c3_recv_all_exact_or_eof (s : List (List Nat)) (n : Nat)
    (hne : ∀ c ∈ s, c ≠ []) :
    (n ≤ s.flatten.length →
       ∃ s', recvAll s n = some (s.flatten.take n, s')
           ∧ (s.flatten.take n).length = n
           ∧ s'.flatten = s.flatten.drop n)
    ∧ (s.flatten.length < n → recvAll s n = none) := by
  have h := recvAllF_spec n n s (Nat.le_refl n) hne
  refine ⟨fun hge => ?_, h.2⟩
  obtain ⟨s', h1, h2, _⟩ := h.1 hge
  exact ⟨s', h1, by rw [List.length_take]; omega, h2⟩

/-- Witness for `c3_recv_all_exact_or_eof`: five bytes split 2+3, reading
a 4-byte frame, plus the truncation case where only 5 bytes arrive for a
declared length of 6. -/
theorem c3_recv_all_witness :
    (∀ c ∈ [[1, 2], [3, 4, 5]], c ≠ ([] : List Nat)) ∧
    (∃ s', recvAll [[1, 2], [3, 4, 5]] 4 = some ([1, 2, 3, 4], s')
         ∧ s'.flatten = [5]) ∧
    recvAll [[1, 2], [3, 4, 5]] 6 = none := by
  refine ⟨by decide, ?_, ?_⟩
  · obtain ⟨s', h1, _, h2⟩ :=
      (c3_recv_all_exact_or_eof [[1, 2], [3, 4, 5]] 4 (by decide)).1 (by decide)
    have ht : (List.flatten [[1, 2], [3, 4, 5]]).take 4 = [1, 2, 3, 4] := by decide
    have hd : (List.flatten [[1, 2], [3, 4, 5]]).drop 4 = [5] := by decide
    exact ⟨s', by rwa [ht] at h1, by rwa [hd] at h2⟩
  · exact (c3_recv_all_exact_or_eof [[1, 2], [3, 4, 5]] 6 (by decide)).2 (by decide)

/-- C1 (counterexample).  In the Calling state (after `make_call`, before
any acceptance) the busy-guard `if not self.in_call` does not fire: an
inbound `call_request` is answered with `call_rejected` (or accepted),
not with `busy`, refuting the claim that every non-Idle state replies
busy with the state unchanged. -/
theorem c1_busy_counterexample :
    handleCallControl (makeCall (initVVState "alice" 13000) "10.0.0.9" "both").1
        (CtrlMsg.call_request "bob" "both" ⟨13000, 13001, 13002⟩)
        "10.0.0.2" false true
      ≠ ((makeCall (initVVState "alice" 13000) "10.0.0.9" "both").1,
         [VVEffect.sendCtrl (some "10.0.0.2") CtrlMsg.busy]) := by
  decide

/-- C1 (amended).  Whenever the `in_call` flag is set (the InCall state),
processing an inbound `call_request` sends exactly one `busy` control
message back to the requester and leaves the engine state completely
unchanged — no prompt, no accept, no media start.  (In the Calling state
the flag is still false and the request is handled as from Idle.) -/
theorem c1_busy_when_in_call (s : VVState) (un ct : String) (ports : Ports)
    (addr : String) (userAccept deviceOk : Bool) (h : s.in_call = true) :
    handleCallControl s (CtrlMsg.call_request un ct ports) addr userAccept deviceOk
      = (s, [VVEffect.sendCtrl (some addr) CtrlMsg.busy]) := by
  simp [handleCallControl, h]

/-- Witness for `c1_busy_when_in_call` at a concrete InCall state. -/
theorem c1_busy_when_in_call_witness :
    ({ initVVState "alice" 13000 with in_call := true } : VVState).in_call = true ∧
    handleCallControl { initVVState "alice" 13000 with in_call := true }
        (CtrlMsg.call_request "bob" "both" ⟨13000, 13001, 13002⟩) "10.0.0.2" true true
      = ({ initVVState "alice" 13000 with in_call := true },
         [VVEffect.sendCtrl (some "10.0.0.2") CtrlMsg.busy]) :=
  ⟨rfl, c1_busy_when_in_call _ "bob" "both" ⟨13000, 13001, 13002⟩ "10.0.0.2" true true rfl⟩

/-- C4.  From every engine state: a local hangup (`end_call`) and an inbound
`call_ended` datagram both leave the engine out of call with every media
resource released (streams closed, capture released, sockets closed, all
set to `None`); and a second hangup right after a first one completes
without sending anything and changes nothing (idempotence). -/
theorem c4_end_call_releases_and_idempotent (s : VVState) (addr : String)
    (userAccept deviceOk : Bool) :
    allReleased (endCall s).1 = true ∧
    allReleased (handleCallControl s CtrlMsg.call_ended addr userAccept deviceOk).1 = true ∧
    endCall (endCall s).1 = ((endCall s).1, []) := by
  cases h : s.in_call <;>
    refine ⟨?_, ?_, ?_⟩ <;>
      simp [endCall, endCallCleanup, handleCallControl, allReleased, h]

/-- C10.  Processing `call_accepted` is not guarded by any state check:
from every engine state (including Idle with no outgoing call pending),
the handler sets the `in_call` flag and starts media streams toward the
datagram's source address with the ports the datagram carries (and the
locally remembered call type). -/
theorem c10_call_accepted_unconditional (s : VVState) (ports : Ports)
    (addr : String) (userAccept : Bool) :
    (handleCallControl s (CtrlMsg.call_accepted ports) addr userAccept true).1.in_call = true ∧
    (handleCallControl s (CtrlMsg.call_accepted ports) addr userAccept true).2
      = [VVEffect.mediaStart addr ports s.current_call_type] := by
  constructor <;> simp [handleCallControl, startMediaStreams]

theorem mem_peersAfter (init : List (String × PeerInfo)) (t0 : ℚ) (ip : String)
    (info : PeerInfo) (hmem : (ip, info) ∈ init) :
    ∀ (j : Nat), (∀ i : Nat, i < j → t0 + 10 * i - info.last_seen ≤ 30) →
    (ip, info) ∈ peersAfter init t0 j := by
  intro j
  induction j with
  | zero => intro _; exact hmem
  | succ m ih =>
    intro hall
    have hmemm := ih (fun i hi => hall i (by omega))
    show (ip, info) ∈ pruneStep (peersAfter init t0 m) (t0 + 10 * m)
    rw [pruneStep, List.mem_filter]
    refine ⟨hmemm, ?_⟩
    have hle := hall m (by omega)
    simp only [Bool.not_eq_true', decide_eq_false_iff_not]
    intro hgt
    linarith

/-- C6.  (a) A peer whose `last_seen` lies more than 30 seconds in the past
is absent from `get_active_peers`; (b) with the pruning pass running every
10 seconds from time `t0 ≤ last_seen` and no further discovery refresh,
the entry survives every pass up to the one at a time in the interval
`(last_seen + 30, last_seen + 40]` and is removed by exactly that pass —
i.e. within the 30–40 s window after the peer's last discovery receipt. -/
theorem c6_stale_absent_and_pruned (peers init : List (String × PeerInfo))
    (now t0 : ℚ) (ip : String) (info : PeerInfo) :
    (now - info.last_seen > 30 → (ip, info) ∉ getActivePeers peers now)
    ∧ ((ip, info) ∈ init → t0 ≤ info.last_seen →
        ∃ k : Nat, info.last_seen + 30 < t0 + 10 * k
          ∧ t0 + 10 * k ≤ info.last_seen + 40
          ∧ (ip, info) ∈ peersAfter init t0 k
          ∧ (ip, info) ∉ peersAfter init t0 (k + 1)) := by
  constructor
  · intro hstale hmem
    rw [getActivePeers, List.mem_filter] at hmem
    have := of_decide_eq_true hmem.2
    linarith
  · intro hmem ht0
    set T := info.last_seen with hT
    set q : ℚ := T + 30 - t0 with hq
    have hq30 : 30 ≤ q := by rw [hq]; linarith
    have hfl0 : 0 ≤ ⌊q / 10⌋ := Int.floor_nonneg.mpr (by positivity)
    set kz : ℤ := ⌊q / 10⌋ + 1 with hkz
    set k : ℕ := kz.toNat with hk
    have hkzk : (k : ℤ) = kz := by
      rw [hk]
      exact Int.toNat_of_nonneg (by omega)
    have hkq : (k : ℚ) = (⌊q / 10⌋ : ℚ) + 1 := by
      have hcast : ((k : ℤ) : ℚ) = ((kz : ℤ) : ℚ) := by
        exact_mod_cast congrArg (fun z : ℤ => (z : ℚ)) hkzk
      rw [hkz] at hcast
      push_cast at hcast
      exact_mod_cast hcast
    have h1 : T + 30 < t0 + 10 * (k : ℚ) := by
      have hlt := Int.lt_floor_add_one (q / 10)
      have h10 : q < 10 * ((⌊q / 10⌋ : ℚ) + 1) := by
        have hmul := (div_lt_iff (by norm_num : (0:ℚ) < 10)).mp hlt
        linarith
      rw [hkq]
      have hqeq : q = T + 30 - t0 := hq
      linarith
    have h2 : t0 + 10 * (k : ℚ) ≤ T + 40 := by
      have hle := Int.floor_le (q / 10)
      have h10 : 10 * ((⌊q / 10⌋ : ℚ) + 1) ≤ q + 10 := by
        have hmul := (le_div_iff (by norm_num : (0:ℚ) < 10)).mp hle
        linarith
      rw [hkq]
      have hqeq : q = T + 30 - t0 := hq
      linarith
    have hmemk : (ip, info) ∈ peersAfter init t0 k := by
      apply mem_peersAfter init t0 ip info hmem
      intro i hi
      have hiz : (i : ℤ) < kz := by
        rw [← hkzk]
        exact_mod_cast hi
      have hizq : (i : ℚ) ≤ (⌊q / 10⌋ : ℚ) := by
        have hiz' : (i : ℤ) ≤ ⌊q / 10⌋ := by omega
        exact_mod_cast hiz'
      have hfle := Int.floor_le (q / 10)
      have h10 : 10 * (i : ℚ) ≤ q := by
        have hdiv : (i : ℚ) ≤ q / 10 := le_trans hizq hfle
        have hmul := (le_div_iff (by norm_num : (0:ℚ) < 10)).mp hdiv
        linarith
      have hqeq : q = T + 30 - t0 := hq
      linarith
    have hnot : (ip, info) ∉ peersAfter init t0 (k + 1) := by
      intro hmem'
      have hstep : (ip, info) ∈ pruneStep (peersAfter init t0 k) (t0 + 10 * (k : ℚ)) :=
        hmem'
      rw [pruneStep, List.mem_filter] at hstep
      have hb := hstep.2
      simp only [Bool.not_eq_true', decide_eq_false_iff_not] at hb
      exact hb (by linarith)
    exact ⟨k, h1, h2, hmemk, hnot⟩

/-- Witness for `c6_stale_absent_and_pruned`: a single peer last seen at
time 0, queried at time 31, with pruning started at time 0. -/
theorem c6_stale_absent_and_pruned_witness :
    ((31 : ℚ) - (0 : ℚ) > 30) ∧
    (("10.0.0.2", PeerInfo.mk "bob" 12345 0)
      ∈ [("10.0.0.2", PeerInfo.mk "bob" 12345 0)]) ∧
    ((0 : ℚ) ≤ (0 : ℚ)) ∧
    ("10.0.0.2", PeerInfo.mk "bob" 12345 0)
      ∉ getActivePeers [("10.0.0.2", PeerInfo.mk "bob" 12345 0)] 31 ∧
    (∃ k : Nat, (0 : ℚ) + 30 < 0 + 10 * (k : ℚ)
      ∧ (0 : ℚ) + 10 * (k : ℚ) ≤ 0 + 40
      ∧ ("10.0.0.2", PeerInfo.mk "bob" 12345 0)
          ∈ peersAfter [("10.0.0.2", PeerInfo.mk "bob" 12345 0)] 0 k
      ∧ ("10.0.0.2", PeerInfo.mk "bob" 12345 0)
          ∉ peersAfter [("10.0.0.2", PeerInfo.mk "bob" 12345 0)] 0 (k + 1)) := by
  have h := c6_stale_absent_and_pruned [("10.0.0.2", PeerInfo.mk "bob" 12345 0)]
    [("10.0.0.2", PeerInfo.mk "bob" 12345 0)] 31 0 "10.0.0.2" (PeerInfo.mk "bob" 12345 0)
  exact ⟨by norm_num, by simp, le_refl 0, h.1 (by norm_num),
    h.2 (by simp) (le_refl 0)⟩

/-- C7.  For every inbound TCP connection: when the source IP is not a key
of the known-peers table the accept loop closes the connection without
reading any payload bytes (`reject`); when it is known, the connection is
handed to the per-connection `_handle_client` handler. -/
theorem c7_unknown_ip_rejected (peers : List (String × PeerInfo)) (ip : String)
    (conn : List (List Nat)) :
    (ip ∉ peers.map Prod.fst → acceptConnection peers ip conn = ServerAction.reject)
    ∧ (ip ∈ peers.map Prod.fst
        → acceptConnection peers ip conn = ServerAction.serve (handleClient conn)) := by
  have hiff : containsKey peers ip = true ↔ ip ∈ peers.map Prod.fst := by
    simp [containsKey, List.any_eq_true, List.mem_map, beq_iff_eq]
  constructor
  · intro h
    rw [acceptConnection, if_neg]
    intro hc
    exact h (hiff.mp hc)
  · intro h
    rw [acceptConnection, if_pos (hiff.mpr h)]

/-- Witness for `c7_unknown_ip_rejected`: an unknown IP is rejected, a
known IP is served. -/
theorem c7_unknown_ip_rejected_witness :
    ("10.0.0.3" ∉ ([("10.0.0.2", PeerInfo.mk "bob" 12345 0)].map Prod.fst)) ∧
    acceptConnection [("10.0.0.2", PeerInfo.mk "bob" 12345 0)] "10.0.0.3" [[48]]
      = ServerAction.reject ∧
    ("10.0.0.2" ∈ ([("10.0.0.2", PeerInfo.mk "bob" 12345 0)].map Prod.fst)) ∧
    acceptConnection [("10.0.0.2", PeerInfo.mk "bob" 12345 0)] "10.0.0.2" [[48]]
      = ServerAction.serve (handleClient [[48]]) :=
  ⟨by decide,
   (c7_unknown_ip_rejected [("10.0.0.2", PeerInfo.mk "bob" 12345 0)] "10.0.0.3" [[48]]).1
     (by decide),
   by decide,
   (c7_unknown_ip_rejected [("10.0.0.2", PeerInfo.mk "bob" 12345 0)] "10.0.0.2" [[48]]).2
     (by decide)⟩

theorem dLookup_dictInsert : ∀ (l : List (String × DiscoveredPeer)) (k : String)
    (v : DiscoveredPeer), dLookup (dictInsert l k v) k = some v := by
  intro l k v
  induction l with
  | nil => simp [dictInsert, dLookup]
  | cons p rest ih =>
    by_cases h : p.1 = k
    · rw [show dictInsert (p :: rest) k v = (k, v) :: rest by
        rw [show (p : String × DiscoveredPeer) = (p.1, p.2) from rfl, dictInsert, if_pos h]]
      simp [dLookup]
    · rw [show dictInsert (p :: rest) k v = (p.1, p.2) :: dictInsert rest k v by
        rw [show (p : String × DiscoveredPeer) = (p.1, p.2) from rfl, dictInsert, if_neg h]]
      rw [dLookup, if_neg h]
      exact ih

/-- C8 (counterexample).  On a multi-homed host (addresses 192.168.1.5 and
10.0.0.7), `get_local_ip()` returns only the first private address, so a
discovery envelope arriving from the host's *other* own address 10.0.0.7
is not skipped: a peer entry keyed by 10.0.0.7 is created, refuting the
claim that envelopes from any of the host's own addresses are skipped. -/
theorem c8_own_address_counterexample :
    "10.0.0.7" ∈ ["192.168.1.5", "10.0.0.7"] ∧
    listenForPeersStep ["192.168.1.5", "10.0.0.7"] []
        ⟨"discovery", "eve", 12345⟩ "10.0.0.7" 100
      = [("10.0.0.7", ⟨"eve", "10.0.0.7", 12345, 100⟩)] := by
  constructor
  · decide
  · decide

/-- C8 (amended).  The discovery listener skips exactly the envelopes whose
source IP equals the single address `get_local_ip()` computes (first
private address, else first non-localhost address, else 127.0.0.1), and
skips non-`discovery` envelopes; every other source IP — including the
host's other own addresses — is upserted into the peer table keyed by that
IP with `last_seen` set to the current time. -/
theorem c8_discovery_upsert (hostAddrs : List String)
    (peers : List (String × DiscoveredPeer)) (msg : DiscoveryMsg)
    (srcIp : String) (now : ℚ) :
    (srcIp = getLocalIp hostAddrs →
      listenForPeersStep hostAddrs peers msg srcIp now = peers)
    ∧ (msg.mtype ≠ "discovery" →
      listenForPeersStep hostAddrs peers msg srcIp now = peers)
    ∧ (msg.mtype = "discovery" → srcIp ≠ getLocalIp hostAddrs →
      listenForPeersStep hostAddrs peers msg srcIp now
        = dictInsert peers srcIp ⟨msg.username, srcIp, msg.port, now⟩
      ∧ dLookup (listenForPeersStep hostAddrs peers msg srcIp now) srcIp
        = some ⟨msg.username, srcIp, msg.port, now⟩) := by
  refine ⟨?_, ?_, ?_⟩
  · intro h
    rw [listenForPeersStep, if_neg]
    intro hcon
    exact hcon.2 h
  · intro h
    rw [listenForPeersStep, if_neg]
    intro hcon
    exact h hcon.1
  · intro h1 h2
    have hstep : listenForPeersStep hostAddrs peers msg srcIp now
        = dictInsert peers srcIp ⟨msg.username, srcIp, msg.port, now⟩ := by
      rw [listenForPeersStep, if_pos ⟨h1, h2⟩]
    exact ⟨hstep, by rw [hstep]; exact dLookup_dictInsert _ _ _⟩

/-- Witness for `c8_discovery_upsert`: the skip branch at the host's own
(single) local IP, and the upsert branch from a genuine peer. -/
theorem c8_discovery_upsert_witness :
    ("192.168.1.5" = getLocalIp ["192.168.1.5"]) ∧
    listenForPeersStep ["192.168.1.5"] [] ⟨"discovery", "bob", 12345⟩ "192.168.1.5" 5
      = [] ∧
    (("discovery" : String) = "discovery") ∧
    ("10.0.0.9" ≠ getLocalIp ["192.168.1.5"]) ∧
    dLookup (listenForPeersStep ["192.168.1.5"] [] ⟨"discovery", "bob", 12345⟩
        "10.0.0.9" 5) "10.0.0.9"
      = some ⟨"bob", "10.0.0.9", 12345, 5⟩ :=
  ⟨by decide,
   (c8_discovery_upsert ["192.168.1.5"] [] ⟨"discovery", "bob", 12345⟩
     "192.168.1.5" 5).1 (by decide),
   rfl,
   by decide,
   ((c8_discovery_upsert ["192.168.1.5"] [] ⟨"discovery", "bob", 12345⟩
     "10.0.0.9" 5).2.2 rfl (by decide)).2⟩

theorem bplRemove_subset_keys : ∀ (peers : List (String × Conn)) (k : String),
    k ∈ bplRemove peers → k ∈ peers.map Prod.fst := by
  intro peers
  induction peers with
  | nil => intro k h; simp [bplRemove] at h
  | cons p rest ih =>
    intro k h
    rw [show (p : String × Conn) = (p.1, p.2) from rfl, bplRemove] at h
    by_cases hok : p.2.sendOk
    · rw [if_pos hok] at h
      simp only [List.map_cons, List.mem_cons]
      exact Or.inr (ih k h)
    · rw [if_neg hok] at h
      rcases List.mem_cons.mp h with h | h
      · simp [h]
      · simp only [List.map_cons, List.mem_cons]
        exact Or.inr (ih k h)

theorem foldl_popKey_notmem : ∀ (ks : List String) (p : String × Conn)
    (l : List (String × Conn)), p.1 ∉ ks →
    List.foldl popKey (p :: l) ks = p :: List.foldl popKey l ks := by
  intro ks
  induction ks with
  | nil => intro p l _; rfl
  | cons k0 ks ih =>
    intro p l hnot
    have h1 : p.1 ≠ k0 := fun h => hnot (by simp [h])
    have h2 : p.1 ∉ ks := fun h => hnot (by simp [h])
    rw [List.foldl_cons, List.foldl_cons,
      show popKey (p :: l) k0 = p :: popKey l k0 by
        rw [show (p : String × Conn) = (p.1, p.2) from rfl, popKey, if_neg h1],
      ih p (popKey l k0) h2]

/-- C9 (amended).  When the relay hub broadcasts an envelope and the send
to one connected peer fails, delivery to every remaining peer still
proceeds (exactly the non-sender peers with working sends receive it),
but `broadcast_message` leaves the connection set unchanged: the failing
peer is not removed and no peer list is rebroadcast there.  Failing peers
are removed from the connection set only by `broadcast_peer_list` (which
itself performs no further rebroadcast). -/
theorem c9_broadcast_failure_isolated (peers : List (String × Conn)) (sender : Conn)
    (hnd : (peers.map Prod.fst).Nodup) :
    (broadcastMessageRun peers sender).1
      = (peers.filter (fun p => decide (p.2 ≠ sender) && p.2.sendOk)).map Prod.fst
    ∧ (broadcastMessageRun peers sender).2 = peers
    ∧ broadcastPeerListRun peers = peers.filter (fun p => p.2.sendOk) := by
  refine ⟨?_, rfl, ?_⟩
  · show broadcastDelivered peers sender = _
    induction peers with
    | nil => rfl
    | cons p rest ih =>
      rw [show (p : String × Conn) = (p.1, p.2) from rfl, broadcastDelivered]
      by_cases hs : p.2 = sender
      · rw [if_neg (by simpa using hs), List.filter_cons,
          if_neg (by simp [hs])]
        exact ih (by simpa using List.Nodup.of_cons (by simpa using hnd))
      · by_cases hok : p.2.sendOk
        · rw [if_pos (by simpa using hs), if_pos hok, List.filter_cons,
            if_pos (by simp [hs, hok])]
          rw [List.map_cons]
          exact congrArg (p.1 :: ·) (ih (by simpa using List.Nodup.of_cons (by simpa using hnd)))
        · rw [if_pos (by simpa using hs), if_neg hok, List.filter_cons,
            if_neg (by simp [hs, hok])]
          exact ih (by simpa using List.Nodup.of_cons (by simpa using hnd))
  · induction peers with
    | nil => rfl
    | cons p rest ih =>
      have hknot : p.1 ∉ rest.map Prod.fst := by
        simp only [List.map_cons, List.nodup_cons] at hnd
        exact hnd.1
      have hrest : (rest.map Prod.fst).Nodup := by
        simp only [List.map_cons, List.nodup_cons] at hnd
        exact hnd.2
      by_cases hok : p.2.sendOk
      · have hb : bplRemove ((p.1, p.2) :: rest) = bplRemove rest := by
          rw [bplRemove, if_pos hok]
        rw [broadcastPeerListRun, show (p : String × Conn) = (p.1, p.2) from rfl, hb,
          foldl_popKey_notmem _ _ _
            (fun h => hknot (bplRemove_subset_keys rest p.1 h)),
          List.filter_cons, if_pos (by simpa using hok)]
        exact congrArg ((p.1, p.2) :: ·) (ih hrest)
      · have hb : bplRemove ((p.1, p.2) :: rest) = p.1 :: bplRemove rest := by
          rw [bplRemove, if_neg hok]
        rw [broadcastPeerListRun, show (p : String × Conn) = (p.1, p.2) from rfl, hb,
          List.foldl_cons,
          show popKey ((p.1, p.2) :: rest) p.1 = rest by rw [popKey, if_pos rfl],
          List.filter_cons, if_neg (by simpa using hok)]
        exact ih hrest

/-- Witness for `c9_broadcast_failure_isolated` on four clients where one
send fails: the other two non-sender peers are still delivered to, the
set is unchanged (the failing client is still present), and only
`broadcast_peer_list` drops it. -/
theorem c9_broadcast_failure_isolated_witness :
    (([("s", Conn.mk 9 true), ("a", Conn.mk 0 true), ("b", Conn.mk 1 false),
        ("c", Conn.mk 2 true)].map Prod.fst).Nodup) ∧
    (broadcastMessageRun [("s", Conn.mk 9 true), ("a", Conn.mk 0 true),
        ("b", Conn.mk 1 false), ("c", Conn.mk 2 true)] (Conn.mk 9 true)).1 = ["a", "c"] ∧
    (broadcastMessageRun [("s", Conn.mk 9 true), ("a", Conn.mk 0 true),
        ("b", Conn.mk 1 false), ("c", Conn.mk 2 true)] (Conn.mk 9 true)).2
      = [("s", Conn.mk 9 true), ("a", Conn.mk 0 true), ("b", Conn.mk 1 false),
         ("c", Conn.mk 2 true)] ∧
    broadcastPeerListRun [("s", Conn.mk 9 true), ("a", Conn.mk 0 true),
        ("b", Conn.mk 1 false), ("c", Conn.mk 2 true)]
      = [("s", Conn.mk 9 true), ("a", Conn.mk 0 true), ("c", Conn.mk 2 true)] := by
  have h := c9_broadcast_failure_isolated [("s", Conn.mk 9 true), ("a", Conn.mk 0 true),
    ("b", Conn.mk 1 false), ("c", Conn.mk 2 true)] (Conn.mk 9 true) (by decide)
  refine ⟨by decide, ?_, h.2.1, ?_⟩
  · rw [h.1]; decide
  · rw [h.2.2]; decide

/-- C9 (counterexample).  After `broadcast_message` hits a send failure on
peer `b`, `b` is still in the connection set — `broadcast_message` removes
nothing and rebroadcasts no peer list, refuting the claim's removal and
rebroadcast part (its delivery-proceeds part does hold: `a` and `c` are
still delivered to). -/
theorem c9_failing_peer_not_removed_counterexample :
    (broadcastMessageRun [("s", Conn.mk 9 true), ("a", Conn.mk 0 true),
        ("b", Conn.mk 1 false), ("c", Conn.mk 2 true)] (Conn.mk 9 true)).1 = ["a", "c"] ∧
    ("b", Conn.mk 1 false) ∈ (broadcastMessageRun [("s", Conn.mk 9 true),
        ("a", Conn.mk 0 true), ("b", Conn.mk 1 false), ("c", Conn.mk 2 true)]
        (Conn.mk 9 true)).2 := by
  constructor
  · decide
  · decide

theorem parseChunkHeader_encode (off : Nat) (chunk : List Nat) (b : Bool)
    (hcl : chunk.length < 4294967296) (hoff : off < 4294967296) :
    parseChunkHeader (encodeChunkDatagram off chunk b)
      = some (chunk.length, off, b, chunk) := by
  have harr : encodeChunkDatagram off chunk b
      = chunk.length / 16777216 % 256 :: chunk.length / 65536 % 256
        :: chunk.length / 256 % 256 :: chunk.length % 256
        :: off / 16777216 % 256 :: off / 65536 % 256 :: off / 256 % 256 :: off % 256
        :: (if b then 1 else 0) :: chunk := by
    simp [encodeChunkDatagram, pack32]
  rw [harr]
  simp only [parseChunkHeader, Option.some.injEq, Prod.mk.injEq]
  refine ⟨by omega, by omega, ?_, trivial⟩
  cases b
  · decide
  · decide

theorem encodeChunkDatagram_length (off : Nat) (chunk : List Nat) (b : Bool) :
    (encodeChunkDatagram off chunk b).length = 9 + chunk.length := by
  simp [encodeChunkDatagram, pack32]
  omega

theorem receiveVideoStep_chunk (buf : List (Nat × List Nat)) (off : Nat)
    (chunk : List Nat) (b : Bool) (hcl : chunk.length < 4294967296)
    (hoff : off < 4294967296) :
    receiveVideoStep buf (encodeChunkDatagram off chunk b)
      = if b then ([], VideoEvent.reassembled (reassembleBuf (bufInsert buf off chunk)))
        else (bufInsert buf off chunk, VideoEvent.buffered) := by
  simp only [receiveVideoStep, encodeChunkDatagram_length,
    parseChunkHeader_encode off chunk b hcl hoff, List.take_length]
  rw [if_neg (by omega : ¬ 9 + chunk.length < 4),
    if_pos (by omega : chunk.length ≤ 9 + chunk.length - 9)]

theorem receiveVideoRun_append (buf : List (Nat × List Nat)) (ds1 ds2 : List (List Nat)) :
    receiveVideoRun buf (ds1 ++ ds2)
      = ((receiveVideoRun (receiveVideoRun buf ds1).1 ds2).1,
         (receiveVideoRun buf ds1).2 ++ (receiveVideoRun (receiveVideoRun buf ds1).1 ds2).2) := by
  induction ds1 generalizing buf with
  | nil => simp [receiveVideoRun]
  | cons d ds ih => simp [receiveVideoRun, ih]

theorem bufInsert_fresh : ∀ (buf : List (Nat × List Nat)) (k : Nat) (v : List Nat),
    k ∉ buf.map Prod.fst → bufInsert buf k v = buf ++ [(k, v)] := by
  intro buf k v
  induction buf with
  | nil => intro _; rfl
  | cons p rest ih =>
    intro h
    have h1 : ¬ p.1 = k := by
      intro hc
      exact h (by simp [hc])
    have h2 : k ∉ rest.map Prod.fst := by
      intro hc
      exact h (by simp [hc])
    rw [show (p : Nat × List Nat) = (p.1, p.2) from rfl, bufInsert, if_neg h1, ih h2]
    rfl

theorem receiveVideoRun_buffered : ∀ (ps : List (Nat × List Nat))
    (buf : List (Nat × List Nat)),
    (∀ p ∈ ps, p.2.length < 4294967296 ∧ p.1 < 4294967296) →
    (∀ p ∈ ps, p.1 ∉ buf.map Prod.fst) →
    ((ps.map Prod.fst).Nodup) →
    receiveVideoRun buf (ps.map (fun p => encodeChunkDatagram p.1 p.2 false))
      = (buf ++ ps, ps.map (fun _ => VideoEvent.buffered)) := by
  intro ps
  induction ps with
  | nil => intro buf _ _ _; simp [receiveVideoRun]
  | cons p ps ih =>
    intro buf hsz hfresh hnd
    have hp := hsz p (by simp)
    have hstep := receiveVideoStep_chunk buf p.1 p.2 false hp.1 hp.2
    rw [if_neg (by simp)] at hstep
    have hins : bufInsert buf p.1 p.2 = buf ++ [(p.1, p.2)] :=
      bufInsert_fresh buf p.1 p.2 (hfresh p (by simp))
    have hnd1 : p.1 ∉ ps.map Prod.fst := by
      simp only [List.map_cons, List.nodup_cons] at hnd
      exact hnd.1
    have hnd2 : (ps.map Prod.fst).Nodup := by
      simp only [List.map_cons, List.nodup_cons] at hnd
      exact hnd.2
    have hfresh2 : ∀ q ∈ ps, q.1 ∉ (buf ++ [(p.1, p.2)]).map Prod.fst := by
      intro q hq
      simp only [List.map_append, List.mem_append, List.map_cons, List.map_nil,
        List.mem_singleton, List.mem_cons]
      rintro (hc | hc)
      · exact hfresh q (by simp [hq]) hc
      · simp only [List.not_mem_nil, or_false] at hc
        exact hnd1 (hc ▸ List.mem_map_of_mem Prod.fst hq)
    have hrec := ih (buf ++ [(p.1, p.2)]) (fun q hq => hsz q (by simp [hq])) hfresh2 hnd2
    rw [List.map_cons, receiveVideoRun]
    simp only [hstep, hins, hrec]
    rw [List.append_assoc]
    rfl

theorem insertSorted_perm (p : Nat × List Nat) :
    ∀ (l : List (Nat × List Nat)), (insertSorted p l).Perm (p :: l) := by
  intro l
  induction l with
  | nil => exact List.Perm.refl _
  | cons q rest ih =>
    rw [insertSorted]
    by_cases h : p.1 ≤ q.1
    · rw [if_pos h]
    · rw [if_neg h]
      exact (ih.cons q).trans (List.Perm.swap p q rest)

theorem sortPairs_perm : ∀ (l : List (Nat × List Nat)), (sortPairs l).Perm l := by
  intro l
  induction l with
  | nil => exact List.Perm.refl _
  | cons p rest ih =>
    rw [sortPairs]
    exact (insertSorted_perm p (sortPairs rest)).trans (ih.cons p)

theorem insertSorted_pairwise (p : Nat × List Nat) :
    ∀ (l : List (Nat × List Nat)),
    List.Pairwise (fun a b : Nat × List Nat => a.1 ≤ b.1) l →
    List.Pairwise (fun a b : Nat × List Nat => a.1 ≤ b.1) (insertSorted p l) := by
  intro l
  induction l with
  | nil => intro _; exact List.pairwise_singleton _ p
  | cons q rest ih =>
    intro h
    rw [insertSorted]
    rcases List.pairwise_cons.mp h with ⟨hq, hrest⟩
    by_cases hle : p.1 ≤ q.1
    · rw [if_pos hle]
      refine List.pairwise_cons.mpr ⟨?_, h⟩
      intro b hb
      rcases List.mem_cons.mp hb with hb | hb
      · rw [hb]; exact hle
      · exact le_trans hle (hq b hb)
    · rw [if_neg hle]
      refine List.pairwise_cons.mpr ⟨?_, ih hrest⟩
      intro b hb
      have hb' : b ∈ p :: rest := (insertSorted_perm p rest).mem_iff.mp hb
      rcases List.mem_cons.mp hb' with hb' | hb'
      · rw [hb']; omega
      · exact hq b hb'

theorem sortPairs_pairwise : ∀ (l : List (Nat × List Nat)),
    List.Pairwise (fun a b : Nat × List Nat => a.1 ≤ b.1) (sortPairs l) := by
  intro l
  induction l with
  | nil => exact List.Pairwise.nil
  | cons p rest ih =>
    rw [sortPairs]
    exact insertSorted_pairwise p (sortPairs rest) ih

theorem reassembleBuf_eq_of_perm (L C : List (Nat × List Nat)) (hperm : L.Perm C)
    (hC : List.Pairwise (fun p q : Nat × List Nat => p.1 < q.1) C) :
    reassembleBuf L = (C.map Prod.snd).flatten := by
  have hperm2 : (sortPairs L).Perm C := (sortPairs_perm L).trans hperm
  have hndC : ((C.map Prod.fst)).Nodup :=
    List.pairwise_map.mpr (hC.imp (fun h => Nat.ne_of_lt h))
  have hndS : (((sortPairs L).map Prod.fst)).Nodup :=
    ((hperm2.map Prod.fst).nodup_iff).mpr hndC
  have hneS : List.Pairwise (fun p q : Nat × List Nat => p.1 ≠ q.1) (sortPairs L) :=
    List.pairwise_map.mp hndS
  have hltS : List.Pairwise (fun p q : Nat × List Nat => p.1 < q.1) (sortPairs L) :=
    ((sortPairs_pairwise L).and hneS).imp (fun h => lt_of_le_of_ne h.1 h.2)
  haveI : IsAntisymm (Nat × List Nat) (fun p q => p.1 < q.1) :=
    ⟨fun a b h1 h2 => absurd h2 (by omega)⟩
  have heq : sortPairs L = C := List.eq_of_perm_of_sorted hperm2 hltS hC
  rw [reassembleBuf, heq]

theorem canonPairs_nil (D : List Nat) (i : Nat) (h : ¬ i < D.length) :
    canonPairs D i = [] := by
  rw [canonPairs, if_neg h]

theorem canonPairs_cons (D : List Nat) (i : Nat) (h : i < D.length) :
    canonPairs D i = (i, (D.drop i).take 60000) :: canonPairs D (i + 60000) := by
  rw [canonPairs, if_pos h]

theorem videoChunks_cons (D : List Nat) (i : Nat) (h : i < D.length) :
    videoChunks D i
      = encodeChunkDatagram i ((D.drop i).take 60000) (decide (D.length ≤ i + 60000))
        :: videoChunks D (i + 60000) := by
  rw [videoChunks, if_pos h]

theorem videoChunks_nil (D : List Nat) (i : Nat) (h : ¬ i < D.length) :
    videoChunks D i = [] := by
  rw [videoChunks, if_neg h]

theorem canonPairs_flat_aux : ∀ (f : Nat) (D : List Nat) (i : Nat), D.length - i ≤ f →
    ((canonPairs D i).map Prod.snd).flatten = D.drop i := by
  intro f
  induction f with
  | zero =>
    intro D i h
    rw [canonPairs_nil D i (by omega)]
    simp [List.drop_eq_nil_of_le (by omega : D.length ≤ i)]
  | succ f ih =>
    intro D i h
    by_cases hi : i < D.length
    · rw [canonPairs_cons D i hi, List.map_cons, List.flatten_cons,
        ih D (i + 60000) (by omega)]
      have hdd : (D.drop i).drop 60000 = D.drop (i + 60000) := by
        rw [List.drop_drop]
      rw [← hdd]
      exact List.take_append_drop 60000 (D.drop i)
    · rw [canonPairs_nil D i hi]
      simp [List.drop_eq_nil_of_le (by omega : D.length ≤ i)]

theorem canonPairs_key_lb : ∀ (f : Nat) (D : List Nat) (i : Nat), D.length - i ≤ f →
    ∀ p ∈ canonPairs D i,
      i ≤ p.1 ∧ p.1 < D.length ∧ p.2 = (D.drop p.1).take 60000 := by
  intro f
  induction f with
  | zero =>
    intro D i h p hp
    rw [canonPairs_nil D i (by omega)] at hp
    simp at hp
  | succ f ih =>
    intro D i h p hp
    by_cases hi : i < D.length
    · rw [canonPairs_cons D i hi] at hp
      rcases List.mem_cons.mp hp with hp | hp
      · subst hp
        exact ⟨le_refl _, hi, rfl⟩
      · obtain ⟨h1, h2, h3⟩ := ih D (i + 60000) (by omega) p hp
        exact ⟨by omega, h2, h3⟩
    · rw [canonPairs_nil D i hi] at hp
      simp at hp

theorem canonPairs_pairwise_lt : ∀ (f : Nat) (D : List Nat) (i : Nat), D.length - i ≤ f →
    List.Pairwise (fun p q : Nat × List Nat => p.1 < q.1) (canonPairs D i) := by
  intro f
  induction f with
  | zero =>
    intro D i h
    rw [canonPairs_nil D i (by omega)]
    exact List.Pairwise.nil
  | succ f ih =>
    intro D i h
    by_cases hi : i < D.length
    · rw [canonPairs_cons D i hi]
      refine List.pairwise_cons.mpr ⟨?_, ih D (i + 60000) (by omega)⟩
      intro q hq
      have := (canonPairs_key_lb (D.length) D (i + 60000) (by omega) q hq).1
      simp only
      omega
    · rw [canonPairs_nil D i hi]
      exact List.Pairwise.nil

theorem canonPairs_ne_nil (D : List Nat) (i : Nat) (h : i < D.length) :
    canonPairs D i ≠ [] := by
  rw [canonPairs_cons D i h]
  simp

theorem canonPairs_last_flag : ∀ (f : Nat) (D : List Nat) (i : Nat), D.length - i ≤ f →
    i < D.length → ∀ (d : Nat × List Nat),
    D.length ≤ ((canonPairs D i).getLastD d).1 + 60000 := by
  intro f
  induction f with
  | zero => intro D i h hi d; omega
  | succ f ih =>
    intro D i h hi d
    rw [canonPairs_cons D i hi, List.getLastD_cons]
    by_cases h2 : i + 60000 < D.length
    · exact ih D (i + 60000) (by omega) h2 _
    · rw [canonPairs_nil D (i + 60000) h2]
      simp only [List.getLastD]
      omega

theorem canonPairs_dropLast_flag : ∀ (f : Nat) (D : List Nat) (i : Nat),
    D.length - i ≤ f →
    ∀ p ∈ (canonPairs D i).dropLast, p.1 + 60000 < D.length := by
  intro f
  induction f with
  | zero =>
    intro D i h p hp
    rw [canonPairs_nil D i (by omega)] at hp
    simp at hp
  | succ f ih =>
    intro D i h p hp
    by_cases hi : i < D.length
    · rw [canonPairs_cons D i hi] at hp
      by_cases h2 : i + 60000 < D.length
      · obtain ⟨q, qs, hqs⟩ :=
          List.exists_cons_of_ne_nil (canonPairs_ne_nil D (i + 60000) h2)
        rw [hqs, List.dropLast_cons₂] at hp
        rcases List.mem_cons.mp hp with hp | hp
        · subst hp
          exact h2
        · exact ih D (i + 60000) (by omega) p (by rw [hqs]; exact hp)
      · rw [canonPairs_nil D (i + 60000) h2] at hp
        simp at hp
    · rw [canonPairs_nil D i hi] at hp
      simp at hp

theorem videoChunks_eq_canon : ∀ (f : Nat) (D : List Nat) (i : Nat), D.length - i ≤ f →
    videoChunks D i = (canonPairs D i).map
      (fun p => encodeChunkDatagram p.1 p.2 (decide (D.length ≤ p.1 + 60000))) := by
  intro f
  induction f with
  | zero =>
    intro D i h
    rw [videoChunks_nil D i (by omega), canonPairs_nil D i (by omega)]
    rfl
  | succ f ih =>
    intro D i h
    by_cases hi : i < D.length
    · rw [videoChunks_cons D i hi, canonPairs_cons D i hi, List.map_cons,
        ih D (i + 60000) (by omega)]
    · rw [videoChunks_nil D i hi, canonPairs_nil D i hi]
      rfl

theorem getLastD_indep : ∀ (l : List (Nat × List Nat)) (d1 d2 : Nat × List Nat),
    l ≠ [] → l.getLastD d1 = l.getLastD d2 := by
  intro l d1 d2 h
  cases l with
  | nil => exact absurd rfl h
  | cons p rest => rw [List.getLastD_cons, List.getLastD_cons]

theorem dropLast_append_getLastD : ∀ (l : List (Nat × List Nat)) (d : Nat × List Nat),
    l ≠ [] → l.dropLast ++ [l.getLastD d] = l := by
  intro l
  induction l with
  | nil => intro d h; exact absurd rfl h
  | cons p rest ih =>
    intro d _
    cases rest with
    | nil => simp [List.getLastD]
    | cons q qs =>
      rw [List.dropLast_cons₂, List.getLastD_cons, List.cons_append]
      exact congrArg (p :: ·) (ih p (by simp))

/-- C5 (amended).  For every compressed frame larger than the 60000-byte
threshold (and below the 2^32 capacity of the 4-byte header fields), the
sender's datagrams are exactly the offset-tagged chunks with only the
final one flagged `is_last`; and for every delivery order in which that
final flagged chunk arrives after all the others, the receiver classifies
every datagram as chunked (each is `buffered`, never treated as a
single-packet frame), stores each chunk at its declared offset, and upon
the `is_last` chunk concatenates the buffered chunks sorted by offset into
bytes identical to the original frame, clearing the buffer. -/
theorem c5_chunk_reassembly (D : List Nat) (rest : List (Nat × List Nat))
    (hbig : 60000 < D.length) (hfit : D.length < 4294967296)
    (hperm : rest.Perm ((canonPairs D 0).dropLast)) :
    sendVideoDatagrams D
      = ((canonPairs D 0).dropLast).map (fun p => encodeChunkDatagram p.1 p.2 false)
        ++ [encodeChunkDatagram (lastPair D).1 (lastPair D).2 true]
    ∧ receiveVideoRun [] (rest.map (fun p => encodeChunkDatagram p.1 p.2 false)
          ++ [encodeChunkDatagram (lastPair D).1 (lastPair D).2 true])
        = ([], rest.map (fun _ => VideoEvent.buffered)
           ++ [VideoEvent.reassembled D]) := by
  have h0 : 0 < D.length := by omega
  have hcne : canonPairs D 0 ≠ [] := canonPairs_ne_nil D 0 h0
  have hdecomp : (canonPairs D 0).dropLast ++ [lastPair D] = canonPairs D 0 :=
    dropLast_append_getLastD _ _ hcne
  have hpw := canonPairs_pairwise_lt D.length D 0 (by omega)
  have hkeysnd : ((canonPairs D 0).map Prod.fst).Nodup :=
    List.pairwise_map.mpr (hpw.imp (fun h => Nat.ne_of_lt h))
  have hlastmem : lastPair D ∈ canonPairs D 0 := by
    rw [← hdecomp]
    exact List.mem_append_right _ (by simp)
  have hsizes : ∀ p ∈ canonPairs D 0, p.2.length < 4294967296 ∧ p.1 < 4294967296 := by
    intro p hp
    obtain ⟨_, hlt, hval⟩ := canonPairs_key_lb D.length D 0 (by omega) p hp
    refine ⟨?_, by omega⟩
    rw [hval, List.length_take]
    omega
  have hfl : ∀ p ∈ (canonPairs D 0).dropLast,
      encodeChunkDatagram p.1 p.2 (decide (D.length ≤ p.1 + 60000))
        = encodeChunkDatagram p.1 p.2 false := by
    intro p hp
    have := canonPairs_dropLast_flag D.length D 0 (by omega) p hp
    congr 1
    simp only [decide_eq_false_iff_not]
    omega
  have hlastflag : decide (D.length ≤ (lastPair D).1 + 60000) = true := by
    simp only [decide_eq_true_eq]
    exact canonPairs_last_flag D.length D 0 (by omega) h0 (0, [])
  have hc1 : sendVideoDatagrams D
      = ((canonPairs D 0).dropLast).map (fun p => encodeChunkDatagram p.1 p.2 false)
        ++ [encodeChunkDatagram (lastPair D).1 (lastPair D).2 true] := by
    rw [sendVideoDatagrams, if_neg (by omega),
      videoChunks_eq_canon D.length D 0 (by omega)]
    conv_lhs => rw [← hdecomp]
    rw [List.map_append, List.map_cons, List.map_nil, List.map_congr_left hfl,
      hlastflag]
  refine ⟨hc1, ?_⟩
  have hrestsub : ∀ p ∈ rest, p ∈ canonPairs D 0 := by
    intro p hp
    have h1 : p ∈ (canonPairs D 0).dropLast := hperm.mem_iff.mp hp
    rw [← hdecomp]
    exact List.mem_append_left _ h1
  have hrsz : ∀ p ∈ rest, p.2.length < 4294967296 ∧ p.1 < 4294967296 :=
    fun p hp => hsizes p (hrestsub p hp)
  have hdrnod : (((canonPairs D 0).dropLast).map Prod.fst).Nodup :=
    hkeysnd.sublist ((List.dropLast_sublist _).map Prod.fst)
  have hrnod : (rest.map Prod.fst).Nodup := ((hperm.map Prod.fst).nodup_iff).mpr hdrnod
  have hbuf := receiveVideoRun_buffered rest [] hrsz (by simp) hrnod
  have hlastsz := hsizes _ hlastmem
  have hlastfresh : (lastPair D).1 ∉ rest.map Prod.fst := by
    intro hc
    have h1 : (lastPair D).1 ∈ ((canonPairs D 0).dropLast).map Prod.fst :=
      (hperm.map Prod.fst).mem_iff.mp hc
    have h2 : ((canonPairs D 0).dropLast).map Prod.fst ++ [(lastPair D).1]
        = (canonPairs D 0).map Prod.fst := by
      conv_rhs => rw [← hdecomp]
      rw [List.map_append]
      rfl
    rw [← h2] at hkeysnd
    obtain ⟨_, _, hdisj⟩ := List.nodup_append.mp hkeysnd
    exact hdisj h1 (by simp)
  have hperm3 : (rest ++ [lastPair D]).Perm (canonPairs D 0) := by
    rw [← hdecomp]
    exact hperm.append_right [lastPair D]
  have hrun1 : receiveVideoRun rest
      [encodeChunkDatagram (lastPair D).1 (lastPair D).2 true]
      = ([], [VideoEvent.reassembled D]) := by
    show receiveVideoRun rest
      (encodeChunkDatagram (lastPair D).1 (lastPair D).2 true :: []) = _
    rw [receiveVideoRun]
    simp only [receiveVideoStep_chunk rest (lastPair D).1 (lastPair D).2 true
      hlastsz.1 hlastsz.2, if_pos rfl, bufInsert_fresh rest _ _ hlastfresh,
      receiveVideoRun]
    rw [show ((lastPair D).1, (lastPair D).2) = lastPair D from rfl,
      reassembleBuf_eq_of_perm (rest ++ [lastPair D]) (canonPairs D 0) hperm3 hpw,
      canonPairs_flat_aux D.length D 0 (by omega), List.drop_zero]
    simp
  rw [receiveVideoRun_append]
  simp only [hbuf, List.nil_append, hrun1]

theorem canonPairs_replicate :
    canonPairs (List.replicate 60001 7) 0
      = [(0, List.replicate 60000 7), (60000, [7])] := by
  have hL : (List.replicate 60001 (7:Nat)).length = 60001 := by
    rw [List.length_replicate]
  rw [canonPairs_cons _ 0 (by rw [hL]; omega),
    canonPairs_cons _ 60000 (by rw [hL]; omega),
    canonPairs_nil _ 120000 (by rw [hL]; omega)]
  rw [List.drop_zero, List.take_replicate, List.drop_replicate, List.take_replicate,
    show min 60000 60001 = 60000 from by omega,
    show (60001 - 60000 : Nat) = 1 from by omega,
    show min 60000 1 = 1 from by omega, List.replicate_one]

/-- Witness for `c5_chunk_reassembly`: a 60001-byte frame split into a
60000-byte chunk and a 1-byte final chunk, the two delivered in order. -/
theorem c5_chunk_reassembly_witness :
    (60000 < (List.replicate 60001 7 : List Nat).length) ∧
    ((List.replicate 60001 7 : List Nat).length < 4294967296) ∧
    (([(0, List.replicate 60000 7)] : List (Nat × List Nat)).Perm
      ((canonPairs (List.replicate 60001 7) 0).dropLast)) ∧
    receiveVideoRun [] ([((0 : Nat), List.replicate 60000 7)].map
          (fun p => encodeChunkDatagram p.1 p.2 false)
        ++ [encodeChunkDatagram (lastPair (List.replicate 60001 7)).1
              (lastPair (List.replicate 60001 7)).2 true])
      = ([], [VideoEvent.buffered,
              VideoEvent.reassembled (List.replicate 60001 7)]) := by
  have hL : (List.replicate 60001 (7:Nat)).length = 60001 := by
    rw [List.length_replicate]
  have hperm : (([(0, List.replicate 60000 7)] : List (Nat × List Nat)).Perm
      ((canonPairs (List.replicate 60001 7) 0).dropLast)) := by
    rw [canonPairs_replicate]
    exact List.Perm.refl _
  have h := (c5_chunk_reassembly (List.replicate 60001 7)
    [(0, List.replicate 60000 7)] (by rw [hL]; omega) (by rw [hL]; omega) hperm).2
  exact ⟨by rw [hL]; omega, by rw [hL]; omega, hperm, h⟩

/-- C5 (counterexample).  The sender of a 60001-byte frame emits exactly
two chunk datagrams, the second flagged is-last; delivering the is-last
datagram first makes the receiver reassemble immediately from a buffer
holding only that one chunk, producing the 1-byte frame [7] instead of
the original 60001-byte frame — reassembly is not byte-identical for
every delivery order of the chunk datagrams. -/
theorem c5_out_of_order_counterexample :
    videoChunks (List.replicate 60001 7) 0
      = [encodeChunkDatagram 0 (List.replicate 60000 7) false,
         encodeChunkDatagram 60000 [7] true] ∧
    (receiveVideoRun [] [encodeChunkDatagram 60000 [7] true,
        encodeChunkDatagram 0 (List.replicate 60000 7) false]).2
      = [VideoEvent.reassembled [7], VideoEvent.buffered] ∧
    ([7] : List Nat) ≠ List.replicate 60001 7 := by
  have hL : (List.replicate 60001 (7:Nat)).length = 60001 := by
    rw [List.length_replicate]
  have hL0 : (List.replicate 60000 (7:Nat)).length = 60000 := by
    rw [List.length_replicate]
  refine ⟨?_, ?_, ?_⟩
  · rw [videoChunks_eq_canon (List.replicate 60001 (7:Nat)).length
      (List.replicate 60001 7) 0 (by omega), canonPairs_replicate]
    simp only [List.map_cons, List.map_nil, hL]
    rw [show (decide ((60001:Nat) ≤ 0 + 60000)) = false from by decide,
      show (decide ((60001:Nat) ≤ 60000 + 60000)) = true from by decide]
  · have h1 := receiveVideoStep_chunk [] 60000 [7] true (by decide) (by decide)
    rw [if_pos rfl] at h1
    have h1' : receiveVideoStep [] (encodeChunkDatagram 60000 [7] true)
        = ([], VideoEvent.reassembled [7]) := by
      rw [h1]
      rfl
    have h2 := receiveVideoStep_chunk [] 0 (List.replicate 60000 7) false
      (by rw [hL0]; omega) (by decide)
    rw [if_neg (by decide)] at h2
    have h2' : receiveVideoStep [] (encodeChunkDatagram 0 (List.replicate 60000 7) false)
        = ([(0, List.replicate 60000 7)], VideoEvent.buffered) := by
      rw [h2]
      rfl
    rw [show receiveVideoRun [] [encodeChunkDatagram 60000 [7] true,
        encodeChunkDatagram 0 (List.replicate 60000 7) false]
        = ([(0, List.replicate 60000 7)],
           [VideoEvent.reassembled [7], VideoEvent.buffered]) from by
      simp only [receiveVideoRun, h1', h2']]
  · intro h
    have hlen := congrArg List.length h
    rw [hL] at hlen
    simp at hlen
